import Mathlib

/-!
Verification of the ASN.1 DER codec of the smkit library.

The definitions below are a shallow embedding of the TypeScript source
(`asn1.ts`): byte buffers (`Uint8Array`) are lists of naturals below 256,
JavaScript strings are lists of characters, fallible functions return
`Except String`.  JavaScript 32-bit signed/unsigned arithmetic is made
explicit with `% 2^32` on `Int`.
-/

deriving instance DecidableEq for Except

namespace SMKit

/-- Mathematical value of `ToUint32`: JavaScript's conversion of an integer
to an unsigned 32-bit value. -/
def toUint32 (n : Int) : Int := n % 4294967296

/-- Mathematical value of `ToInt32`: JavaScript's conversion of an integer
to a signed 32-bit value (two's complement). -/
def toInt32 (n : Int) : Int :=
  if n % 4294967296 < 2147483648 then n % 4294967296 else n % 4294967296 - 4294967296

/-- Model of the JavaScript expression `(acc << 8) | b` as it occurs in the
`decodeLength` loop.  `<<` converts `acc` to a signed 32-bit integer, shifts
modulo 2^32 and reinterprets as signed; since `b` is a byte read from a
`Uint8Array` (so `0 ≤ b < 256`) and the shifted value has its low 8 bits
clear, the bitwise `|` coincides with addition. -/
def jsShl8Or (acc : Int) (b : Nat) : Int :=
  toInt32 (toUint32 acc * 256 % 4294967296) + b

/-- Character codes JavaScript treats as whitespace when trimming the input
of `parseInt` (ASCII whitespace, NBSP, the Unicode space separators, line
and paragraph separators, and the BOM). -/
def isJsSpace (c : Char) : Prop :=
  c.toNat ∈ ([9, 10, 11, 12, 13, 32, 160, 5760, 8192, 8193, 8194, 8195, 8196, 8197,
    8198, 8199, 8200, 8201, 8202, 8232, 8233, 8239, 8287, 12288, 65279] : List Nat)

instance (c : Char) : Decidable (isJsSpace c) := by unfold isJsSpace; infer_instance

/-- Radix-16 digits accepted by `parseInt`: `0-9`, `a-f`, `A-F`. -/
def jsHexDigit (c : Char) : Prop :=
  (48 ≤ c.toNat ∧ c.toNat ≤ 57) ∨ (97 ≤ c.toNat ∧ c.toNat ≤ 102) ∨
    (65 ≤ c.toNat ∧ c.toNat ≤ 70)

instance (c : Char) : Decidable (jsHexDigit c) := by unfold jsHexDigit; infer_instance

/-- Numeric value of a radix-16 digit. -/
def hexDigitVal (c : Char) : Nat :=
  if c.toNat ≤ 57 then c.toNat - 48
  else if c.toNat ≤ 70 then c.toNat - 55
  else c.toNat - 87

/-- Model of `parseInt(s, 16)` on a one-character string that has already
been trimmed and is known not to start with a further sign (helper for
`parseIntHexPair`).  Returns `none` for `NaN`. -/
def parseIntHexSingle (c : Char) : Option Int :=
  if c = '+' then none
  else if c = '-' then none
  else if jsHexDigit c then some (hexDigitVal c)
  else none

/-- Model of `parseInt(s, 16)` on an arbitrary two-character string, the only
shape `Hex.decode` ever passes (it always takes `substring(2*i, 2*i+2)` of an
even-length string).  Follows the ECMAScript algorithm: trim whitespace,
consume an optional sign, strip an optional `0x`/`0X` marker, then read the
longest prefix of radix-16 digits; an empty digit string is `NaN` (`none`). -/
def parseIntHexPair (c0 c1 : Char) : Option Int :=
  if isJsSpace c0 then
    if isJsSpace c1 then none else parseIntHexSingle c1
  else if c0 = '+' then
    if jsHexDigit c1 then some (hexDigitVal c1) else none
  else if c0 = '-' then
    if jsHexDigit c1 then some (-(hexDigitVal c1 : Int)) else none
  else if c0 = '0' ∧ (c1 = 'x' ∨ c1 = 'X') then none
  else if jsHexDigit c0 then
    if jsHexDigit c1 then some (hexDigitVal c0 * 16 + hexDigitVal c1)
    else some (hexDigitVal c0)
  else none

/-- Model of storing a `parseInt` result into a `Uint8Array` slot: `NaN`
becomes `0`, anything else is reduced modulo 256 (`ToUint8`). -/
def storeUint8 : Option Int → Nat
  | none => 0
  | some v => (v % 256).toNat

/-- Lowercase hexadecimal digit for a value below 16, as produced by
`i.toString(16)`. -/
def hexDigitChar (n : Nat) : Char :=
  Char.ofNat (if n < 10 then n + 48 else n + 87)

/-- The two lowercase hex characters of one byte: the precomputed
`byteToHex` table entry `i.toString(16).padStart(2, '0')`. -/
def byteToHexChars (b : Nat) : List Char :=
  [hexDigitChar (b / 16), hexDigitChar (b % 16)]

/-- Model of `Hex.encode`: concatenate the two-character images of the
bytes. -/
def hexEncode : List Nat → List Char
  | [] => []
  | b :: rest => byteToHexChars b ++ hexEncode rest

/-- The per-pair loop of `Hex.decode`: each consecutive two-character
substring is parsed with `parseInt(·, 16)` and stored into the output
`Uint8Array`. -/
def hexDecodePairs : List Char → List Nat
  | c0 :: c1 :: rest => storeUint8 (parseIntHexPair c0 c1) :: hexDecodePairs rest
  | _ => []

/-- Model of `Hex.decode`: odd-length input throws, otherwise every
two-character pair is parsed with `parseInt(·, 16)`. -/
def hexDecode (s : List Char) : Except String (List Nat) :=
  if s.length % 2 ≠ 0 then .error "Invalid hex string length"
  else .ok (hexDecodePairs s)

/-- ASN.1 tag byte for INTEGER (`ASN1Tag.INTEGER`). -/
def INTEGER_TAG : Nat := 2

/-- ASN.1 tag byte for SEQUENCE (`ASN1Tag.SEQUENCE`). -/
def SEQUENCE_TAG : Nat := 48

/-- Big-endian base-256 digits of `n` (no digits for `0`), as produced by the
`while (temp > 0) { ...; temp >>>= 8 }` loop of `encodeLength` together with
the descending fill loop.  The `fuel` argument keeps the recursion
structural; it only needs to exceed the number of digits. -/
def beBytesAux : Nat → Nat → List Nat
  | 0, _ => []
  | fuel + 1, n => if n = 0 then [] else beBytesAux fuel (n / 256) ++ [n % 256]

/-- Big-endian base-256 digits of `n`.  Forty digits cover every length a
JavaScript number can hold exactly, far beyond the `< 2^32` range where the
source's `>>>` arithmetic is faithful to plain division. -/
def beBytes (n : Nat) : List Nat := beBytesAux 40 n

/-- Value of a big-endian base-256 digit string. -/
def beVal (bytes : List Nat) : Nat := bytes.foldl (fun a b => a * 256 + b) 0

/-- Model of `encodeLength`: short form below 128, otherwise
`0x80 | byteCount` followed by the big-endian bytes of the length. -/
def encodeLength (len : Nat) : List Nat :=
  if len < 128 then [len]
  else (128 ||| (beBytes len).length) :: beBytes len

/-- Read `data[i]` on a `Uint8Array`: `none` models the `undefined` value
JavaScript yields for an out-of-range (also negative) index. -/
def byteAt (data : List Nat) (i : Int) : Option Nat :=
  if i < 0 then none else data[i.toNat]?

/-- The accumulation loop of `decodeLength`:
`length = (length << 8) | data[offset + 1 + i]` over the length bytes. -/
def lenLoop (bytes : List Nat) : Int := bytes.foldl jsShl8Or 0

/-- Model of `decodeLength`.  The returned length is an `Int`: with four
length bytes the `<<`/`|` arithmetic is signed 32-bit and can produce a
negative number.  A negative `offset` reads `undefined`, for which
`firstByte < 128` is false and `firstByte & 0x7f` is `0`, so the code
falls into the long-form branch and throws there. -/
def decodeLength (data : List Nat) (offset : Int) : Except String (Int × Nat) :=
  if offset ≥ (data.length : Int) then .error "Offset out of bounds"
  else match byteAt data offset with
    | none => .error "Invalid or unsupported long form length"
    | some firstByte =>
      if firstByte < 128 then .ok ((firstByte : Int), 1)
      else
        let numBytes := firstByte &&& 127
        if numBytes = 0 ∨ numBytes > 4 then
          .error "Invalid or unsupported long form length"
        else if offset + 1 + numBytes > (data.length : Int) then
          .error "Length bytes out of bounds"
        else
          .ok (lenLoop ((data.drop (offset + 1).toNat).take numBytes), 1 + numBytes)

/-- Strip redundant leading zero bytes, the
`while (start < bytes.length - 1 && bytes[start] === 0) start++` loop of
`encodeInteger`: zeros are dropped only while at least one byte remains. -/
def stripStart : List Nat → List Nat
  | a :: b :: rest => if a = 0 then stripStart (b :: rest) else a :: b :: rest
  | bytes => bytes

/-- Model of `%TypedArray%.prototype.subarray(b, e)`: negative indices count
from the end, both are clamped to `[0, length]`, an empty view results when
the end does not exceed the start. -/
def subarray (data : List Nat) (b e : Int) : List Nat :=
  let n : Int := data.length
  let b' := if b < 0 then max (n + b) 0 else min b n
  let e' := if e < 0 then max (n + e) 0 else min e n
  (data.take e'.toNat).drop b'.toNat

/-- Model of `encodeInteger` on a byte array: strip redundant leading
zeros, prepend a `0x00` pad byte when the most significant bit of the first
remaining byte is set (`bytes[0] & 0x80`; an empty array reads `undefined`,
and `undefined & 0x80` is `0`), then emit tag, length and content.  The
string overload is `encodeInteger` below. -/
def encodeIntegerBytes (value : List Nat) : List Nat :=
  let bytes := stripStart value
  let needPadding := bytes.getD 0 0 &&& 128 ≠ 0
  let content := (if needPadding then [0] else []) ++ bytes
  INTEGER_TAG :: (encodeLength content.length ++ content)

/-- A `string | Uint8Array` argument: hex text or a byte array. -/
inductive Bin where
  | str (s : List Char)
  | bytes (b : List Nat)
deriving DecidableEq

/-- The `typeof value === 'string' ? Hex.decode(value) : value`
normalization shared by `encodeInteger` and `encodeSignature`. -/
def binToBytes : Bin → Except String (List Nat)
  | .str s => hexDecode s
  | .bytes b => .ok b

/-- Model of `encodeInteger` on a `string | Uint8Array` argument. -/
def encodeInteger (value : Bin) : Except String (List Nat) :=
  match binToBytes value with
  | .error e => .error e
  | .ok bytes => .ok (encodeIntegerBytes bytes)

/-- Model of `decodeInteger`.  An out-of-range offset reads `undefined`,
which fails the `=== 0x02` comparison, and the code throws (building the
error message then even raises a `TypeError` on `undefined.toString`; either
way an exception propagates).  `bytesRead` is `1 + lengthBytes + length`
with `length` the possibly-negative 32-bit decoded length. -/
def decodeInteger (data : List Nat) (offset : Nat := 0) :
    Except String (List Nat × Int) :=
  if byteAt data offset ≠ some INTEGER_TAG then
    .error "Expected INTEGER tag (0x02)"
  else
    match decodeLength data ((offset : Int) + 1) with
    | .error e => .error e
    | .ok (len, lengthBytes) =>
      let start : Int := (offset : Int) + 1 + lengthBytes
      let stop : Int := start + len
      if stop > (data.length : Int) then .error "Integer value out of bounds"
      else
        let v := subarray data start stop
        let v2 := if 1 < v.length ∧ v.getD 0 1 = 0 then v.drop 1 else v
        .ok (v2, 1 + (lengthBytes : Int) + len)

/-- Concatenation of the elements of a sequence (the `result.set` fill loop
of `encodeSequence`). -/
def concatAll : List (List Nat) → List Nat
  | [] => []
  | e :: rest => e ++ concatAll rest

/-- Model of `encodeSequence(...elements)`. -/
def encodeSequence (elements : List (List Nat)) : List Nat :=
  SEQUENCE_TAG :: (encodeLength (concatAll elements).length ++ concatAll elements)

/-- The `while (pos < contentEnd)` loop of `decodeSequence`.  The loop in
the source has no termination guarantee of its own (a negative decoded
element length moves `pos` backwards and the JavaScript loop never exits);
the `fuel` argument makes the model total, and exhausting it models that
divergence.  For every input whose element lengths are positive,
`data.length + 1` units of fuel are more than enough. -/
def seqLoop (data : List Nat) (stop : Int) : Int → Nat → Except String (List (List Nat))
  | _, 0 => .error "sequence decoding does not terminate"
  | pos, fuel + 1 =>
    if pos < stop then
      match decodeLength data (pos + 1) with
      | .error e => .error e
      | .ok (elemLength, elemLengthBytes) =>
        let elemTotalLength : Int := 1 + elemLengthBytes + elemLength
        match seqLoop data stop (pos + elemTotalLength) fuel with
        | .error e => .error e
        | .ok rest => .ok (subarray data pos (pos + elemTotalLength) :: rest)
    else .ok []

/-- Model of `decodeSequence`: check the tag, decode the content length,
check bounds, then slice the content into top-level TLV elements. -/
def decodeSequence (data : List Nat) (offset : Nat := 0) :
    Except String (List (List Nat) × Int) :=
  if byteAt data offset ≠ some SEQUENCE_TAG then
    .error "Expected SEQUENCE tag"
  else
    match decodeLength data ((offset : Int) + 1) with
    | .error e => .error e
    | .ok (len, lengthBytes) =>
      let contentStart : Int := (offset : Int) + 1 + lengthBytes
      let contentStop : Int := contentStart + len
      if contentStop > (data.length : Int) then .error "Sequence content out of bounds"
      else
        match seqLoop data contentStop contentStart (data.length + 1) with
        | .error e => .error e
        | .ok elements => .ok (elements, 1 + (lengthBytes : Int) + len)

/-- Model of `encodeSignature` on byte-array components (the shape
`rawToDer` uses). -/
def encodeSignatureBytes (r s : List Nat) : List Nat :=
  encodeSequence [encodeIntegerBytes r, encodeIntegerBytes s]

/-- Model of `encodeSignature(r, s)` on `string | Uint8Array` components. -/
def encodeSignature (r s : Bin) : Except String (List Nat) :=
  match encodeInteger r with
  | .error e => .error e
  | .ok rEncoded =>
    match encodeInteger s with
    | .error e => .error e
    | .ok sEncoded => .ok (encodeSequence [rEncoded, sEncoded])

/-- Model of `decodeSignature`: decode the outer SEQUENCE, require exactly
two elements, decode each as an INTEGER and return lowercase hex. -/
def decodeSignature (signature : List Nat) : Except String (List Char × List Char) :=
  match decodeSequence signature 0 with
  | .error e => .error e
  | .ok (elements, _) =>
    if elements.length ≠ 2 then .error "Invalid signature: expected 2 elements (r, s)"
    else
      match decodeInteger (elements.getD 0 []) 0 with
      | .error e => .error e
      | .ok (rBytes, _) =>
        match decodeInteger (elements.getD 1 []) 0 with
        | .error e => .error e
        | .ok (sBytes, _) => .ok (hexEncode rBytes, hexEncode sBytes)

/-- Model of `rawToDer`: a string input must be exactly 128 hex characters,
a byte input exactly 64 bytes; the two 32-byte halves are encoded as a
signature. -/
def rawToDer (rawSignature : Bin) : Except String (List Nat) :=
  match rawSignature with
  | .str s =>
    if s.length ≠ 128 then .error "Raw signature string must be 128 hex chars"
    else
      match hexDecode s with
      | .error e => .error e
      | .ok bytes => .ok (encodeSignatureBytes (subarray bytes 0 32) (subarray bytes 32 64))
  | .bytes b =>
    if b.length ≠ 64 then .error "Raw signature bytes must be 64 bytes"
    else .ok (encodeSignatureBytes (subarray b 0 32) (subarray b 32 64))

/-- Model of `String.prototype.padStart(n, c)`. -/
def padStart (s : List Char) (n : Nat) (c : Char) : List Char :=
  List.replicate (n - s.length) c ++ s

/-- Model of `derToRaw`: decode the signature and zero-pad each component
back to 64 hex characters. -/
def derToRaw (derSignature : List Nat) : Except String (List Char) :=
  match decodeSignature derSignature with
  | .error e => .error e
  | .ok (r, s) => .ok (padStart r 64 '0' ++ padStart s 64 '0')

/-- A well-formed DER length encoding of the value `n`, as the spec
describes it: short form (one byte below 128), or long form (`0x80`
bitwise-or the count of following length bytes, then `n` big-endian, with
1 to 4 length bytes — the range `decodeLength` accepts). -/
def ValidLenEnc (lb : List Nat) (n : Nat) : Prop :=
  (n < 128 ∧ lb = [n]) ∨
  (∃ bs : List Nat, lb = (128 ||| bs.length) :: bs ∧ 1 ≤ bs.length ∧ bs.length ≤ 4 ∧ beVal bs = n)

/-- Content octets `encodeIntegerBytes` emits: the stripped value, with a
`0x00` pad byte in front when the most significant bit of its first byte is
set. -/
def intContent (value : List Nat) : List Nat :=
  (if (stripStart value).getD 0 0 &&& 128 ≠ 0 then [0] else []) ++ stripStart value

/-- Minimal DER INTEGER content as the spec words it: strip all leading
zero bytes, keep at least one byte, and prepend a single `0x00` pad byte
exactly when the most significant bit of the first remaining byte is set. -/
def derIntMinimal (v : List Nat) : List Nat :=
  let m := v.dropWhile (fun b => b == 0)
  let m2 := if m = [] then [0] else m
  if 128 ≤ m2.headD 0 then 0 :: m2 else m2

/-- Lowercase hexadecimal digits `0-9`, `a-f`. -/
def isLowerHex (c : Char) : Prop :=
  (48 ≤ c.toNat ∧ c.toNat ≤ 57) ∨ (97 ≤ c.toNat ∧ c.toNat ≤ 102)

instance (c : Char) : Decidable (isLowerHex c) := by unfold isLowerHex; infer_instance

/-! Basic facts about buffer indexing and slicing. -/

theorem byteAt_cons_zero (x : Nat) (l : List Nat) : byteAt (x :: l) 0 = some x := by
  simp [byteAt]

theorem byteAt_append_mid (A : List Nat) (b : Nat) (B : List Nat) :
    byteAt (A ++ b :: B) (A.length : Int) = some b := by
  unfold byteAt
  rw [if_neg (by omega)]
  simp [List.getElem?_append_right (Nat.le_refl A.length)]

theorem byteAt_bounds {data : List Nat} {i : Int} {b : Nat}
    (h : byteAt data i = some b) : 0 ≤ i ∧ i < (data.length : Int) := by
  unfold byteAt at h
  split at h
  · exact absurd h (by simp)
  · rename_i hneg
    have hlt : i.toNat < data.length := by
      by_contra hge
      rw [List.getElem?_eq_none (by omega)] at h
      exact absurd h (by simp)
    omega

theorem subarray_eq_take_drop (data : List Nat) (b e : Int)
    (hb : 0 ≤ b) (hbl : b ≤ (data.length : Int))
    (he : 0 ≤ e) (hel : e ≤ (data.length : Int)) :
    subarray data b e = (data.take e.toNat).drop b.toNat := by
  have hb' : ¬ b < 0 := by omega
  have he' : ¬ e < 0 := by omega
  simp only [subarray, if_neg hb', if_neg he', min_eq_left hbl, min_eq_left hel]

theorem subarray_extract (A E B : List Nat) :
    subarray (A ++ E ++ B) (A.length : Int) ((A.length : Int) + E.length) = E := by
  rw [subarray_eq_take_drop _ _ _ (by omega)
    (by simp only [List.length_append]; push_cast; omega) (by omega)
    (by simp only [List.length_append]; push_cast; omega)]
  have h1 : ((A.length : Int) + E.length).toNat = A.length + E.length := by omega
  have h2 : ((A.length : Int)).toNat = A.length := by omega
  rw [h1, h2, List.take_left' (by simp), List.drop_left]

/-! Facts about big-endian length bytes. -/

theorem beVal_foldl (l : List Nat) : ∀ acc : Nat,
    l.foldl (fun a b => a * 256 + b) acc = acc * 256 ^ l.length + beVal l := by
  induction l with
  | nil => intro acc; simp [beVal]
  | cons b rest ih =>
    intro acc
    have hbv : beVal (b :: rest) = b * 256 ^ rest.length + beVal rest := by
      have h := ih b
      simpa [beVal] using h
    simp only [List.foldl_cons, List.length_cons, hbv, ih (acc * 256 + b)]
    ring

theorem beVal_cons (b : Nat) (l : List Nat) :
    beVal (b :: l) = b * 256 ^ l.length + beVal l := by
  have h := beVal_foldl l b
  simpa [beVal] using h

theorem beVal_append_one (l : List Nat) (b : Nat) :
    beVal (l ++ [b]) = beVal l * 256 + b := by
  simp [beVal, List.foldl_append]

theorem beBytesAux_val (f : Nat) : ∀ n, n < 256 ^ f → beVal (beBytesAux f n) = n := by
  induction f with
  | zero =>
    intro n h
    have : n = 0 := by simpa using h
    subst this
    rfl
  | succ f ih =>
    intro n h
    by_cases h0 : n = 0
    · subst h0; simp [beBytesAux, beVal]
    · simp only [beBytesAux, if_neg h0]
      rw [beVal_append_one, ih (n / 256) (by
        have : 256 ^ (f + 1) = 256 ^ f * 256 := by ring
        omega)]
      omega

theorem beBytesAux_lt (f : Nat) : ∀ n, ∀ b ∈ beBytesAux f n, b < 256 := by
  induction f with
  | zero => intro n b hb; simp [beBytesAux] at hb
  | succ f ih =>
    intro n b hb
    by_cases h0 : n = 0
    · subst h0; simp [beBytesAux] at hb
    · simp only [beBytesAux, if_neg h0, List.mem_append, List.mem_singleton] at hb
      rcases hb with hb | hb
      · exact ih _ b hb
      · subst hb; omega

theorem beBytesAux_length_le (f : Nat) : ∀ n k, n < 256 ^ k → k ≤ f →
    (beBytesAux f n).length ≤ k := by
  induction f with
  | zero => intro n k _ _; simp [beBytesAux]
  | succ f ih =>
    intro n k h hk
    by_cases h0 : n = 0
    · subst h0; simp [beBytesAux]
    · cases k with
      | zero => simp at h; omega
      | succ k =>
        simp only [beBytesAux, if_neg h0, List.length_append, List.length_singleton]
        have hdiv : n / 256 < 256 ^ k := by
          have : 256 ^ (k + 1) = 256 ^ k * 256 := by ring
          omega
        have := ih (n / 256) k hdiv (by omega)
        omega

theorem beBytesAux_ne_nil (f n : Nat) (h0 : n ≠ 0) (hf : 0 < f) :
    beBytesAux f n ≠ [] := by
  cases f with
  | zero => omega
  | succ f => simp [beBytesAux, h0]

/-! Facts about the 32-bit accumulation loop of `decodeLength`. -/

theorem jsShl8Or_eq_of_lt (acc : Int) (b : Nat) (h0 : 0 ≤ acc)
    (h1 : acc * 256 + b < 2147483648) : jsShl8Or acc b = acc * 256 + b := by
  unfold jsShl8Or toInt32 toUint32
  split <;> omega

theorem lenLoop_foldl (bs : List Nat) : ∀ acc : Int, 0 ≤ acc →
    acc * 256 ^ bs.length + (beVal bs : Int) < 2147483648 →
    bs.foldl jsShl8Or acc = acc * 256 ^ bs.length + (beVal bs : Int) := by
  induction bs with
  | nil => intro acc _ _; simp [beVal]
  | cons b rest ih =>
    intro acc h0 h1
    have hpow : (1 : Int) ≤ 256 ^ rest.length := one_le_pow₀ (by norm_num)
    have hbvnn : (0 : Int) ≤ (beVal rest : Int) := by positivity
    have hbv : (beVal (b :: rest) : Int) = (b : Int) * 256 ^ rest.length + (beVal rest : Int) := by
      rw [beVal_cons]; push_cast; ring
    rw [List.length_cons, hbv] at h1
    have hexp : (acc * 256 + (b : Int)) * 256 ^ rest.length + (beVal rest : Int)
        = acc * 256 ^ (rest.length + 1) + ((b : Int) * 256 ^ rest.length + (beVal rest : Int)) := by
      ring
    have hstepnn : (0 : Int) ≤ acc * 256 + b := by positivity
    have hle : acc * 256 + (b : Int) ≤ (acc * 256 + (b : Int)) * 256 ^ rest.length + (beVal rest : Int) := by
      nlinarith
    have hstep : acc * 256 + (b : Int) < 2147483648 := by omega
    rw [List.foldl_cons, jsShl8Or_eq_of_lt acc b h0 hstep,
      ih (acc * 256 + b) hstepnn (by omega), List.length_cons, hbv]
    ring

theorem lenLoop_eq_beVal (bs : List Nat) (h : beVal bs < 2147483648) :
    lenLoop bs = (beVal bs : Int) := by
  have := lenLoop_foldl bs 0 (by omega) (by simpa using by exact_mod_cast h)
  simpa [lenLoop] using this

/-! Behaviour of `decodeLength` on well-formed length encodings, at any
position of a larger buffer. -/

theorem lor_128 (k : Nat) (hk : k ≤ 4) : 128 ||| k = 128 + k := by
  interval_cases k <;> rfl

theorem land_127 (k : Nat) (hk : k ≤ 4) : (128 + k) &&& 127 = k := by
  interval_cases k <;> rfl

theorem decodeLength_at (A lb B : List Nat) (n : Nat) (hv : ValidLenEnc lb n)
    (hn : n < 2147483648) :
    decodeLength (A ++ lb ++ B) (A.length : Int) = .ok ((n : Int), lb.length) := by
  rcases hv with ⟨h128, rfl⟩ | ⟨bs, rfl, hb1, hb4, rfl⟩
  · have hcons : A ++ [n] ++ B = A ++ n :: B := by simp
    have hlen : (A ++ n :: B).length = A.length + 1 + B.length := by simp; omega
    rw [hcons]
    unfold decodeLength
    rw [if_neg (by rw [hlen]; push_cast; omega), byteAt_append_mid]
    simp only [if_pos h128]
    rfl
  · set k := bs.length with hk
    have hfb : 128 ||| k = 128 + k := lor_128 k hb4
    have hdata : A ++ ((128 ||| k) :: bs) ++ B = A ++ (128 + k) :: (bs ++ B) := by
      simp [hfb]
    have hlen : (A ++ (128 + k) :: (bs ++ B)).length = A.length + 1 + k + B.length := by
      simp [hk]; omega
    have hval : beVal bs < 2147483648 := hn
    rw [hdata]
    unfold decodeLength
    rw [if_neg (by rw [hlen]; push_cast; omega)]
    simp only [byteAt_append_mid]
    rw [if_neg (by omega)]
    simp only [land_127 k hb4]
    rw [if_neg (by omega), if_neg (by rw [hlen]; push_cast; omega)]
    have hdrop : ((A.length : Int) + 1).toNat = (A ++ [128 + k]).length := by
      simp
    have hsplit : A ++ (128 + k) :: (bs ++ B) = (A ++ [128 + k]) ++ (bs ++ B) := by simp
    rw [hdrop, hsplit, List.drop_left, hk, List.take_left' rfl,
      lenLoop_eq_beVal bs hval]
    simp [hk]
    omega

theorem encodeLength_validLenEnc (n : Nat) (h : n < 2147483648) :
    ValidLenEnc (encodeLength n) n := by
  by_cases h128 : n < 128
  · exact Or.inl ⟨h128, by simp [encodeLength, h128]⟩
  · refine Or.inr ⟨beBytes n, by simp [encodeLength, h128], ?_, ?_, ?_⟩
    · have h2 : beBytes n ≠ [] := beBytesAux_ne_nil 40 n (by omega) (by norm_num)
      have := List.length_pos.mpr h2
      omega
    · refine beBytesAux_length_le 40 n 4 ?_ (by norm_num)
      have : (256 : Nat) ^ 4 = 4294967296 := by norm_num
      omega
    · refine beBytesAux_val 40 n ?_
      calc n < 2147483648 := h
        _ ≤ 256 ^ 40 := by norm_num

/-! Facts about the leading-zero stripping of `encodeInteger`. -/

theorem stripStart_cons_zero (b : Nat) (rest : List Nat) :
    stripStart (0 :: b :: rest) = stripStart (b :: rest) := by
  simp [stripStart]

theorem stripStart_replicate (l : List Nat) :
    ∃ k, l = List.replicate k 0 ++ stripStart l := by
  induction l using stripStart.induct with
  | case1 b rest ih =>
    obtain ⟨k, hk⟩ := ih
    refine ⟨k + 1, ?_⟩
    rw [stripStart_cons_zero, List.replicate_succ, List.cons_append]
    exact congrArg _ hk
  | case2 a b rest ha =>
    exact ⟨0, by simp [stripStart, ha]⟩
  | case3 bytes h =>
    refine ⟨0, ?_⟩
    match bytes, h with
    | [], _ => rfl
    | [b], _ => rfl
    | a :: b :: rest, h => exact absurd rfl (h a b rest)

theorem stripStart_head_ne (l : List Nat) (h : 1 < (stripStart l).length) :
    ∀ d, (stripStart l).getD 0 d ≠ 0 := by
  induction l using stripStart.induct with
  | case1 b rest ih =>
    rw [stripStart_cons_zero] at h ⊢
    exact ih h
  | case2 a b rest ha =>
    simp only [stripStart, if_neg ha] at h ⊢
    intro d
    simpa using ha
  | case3 bytes hb =>
    match bytes, hb with
    | [], _ => simp [stripStart] at h
    | [b], _ => simp [stripStart] at h
    | a :: b :: rest, hb => exact absurd rfl (hb a b rest)

theorem stripStart_ne_nil (l : List Nat) (h : l ≠ []) : stripStart l ≠ [] := by
  induction l using stripStart.induct with
  | case1 b rest ih =>
    rw [stripStart_cons_zero]
    exact ih (by simp)
  | case2 a b rest ha => simp [stripStart, ha]
  | case3 bytes hb =>
    match bytes, hb with
    | [], _ => exact absurd rfl h
    | [b], _ => simp [stripStart]
    | a :: b :: rest, hb => exact absurd rfl (hb a b rest)

theorem stripStart_minimal (l : List Nat) (h : 1 < l.length → l.headD 0 ≠ 0) :
    stripStart l = l := by
  match l with
  | [] => rfl
  | [b] => rfl
  | a :: b :: rest =>
    have ha : a ≠ 0 := by
      simpa using h (by simp only [List.length_cons]; omega)
    simp [stripStart, ha]

theorem mem_stripStart {x : Nat} {l : List Nat} (h : x ∈ stripStart l) : x ∈ l := by
  obtain ⟨k, hk⟩ := stripStart_replicate l
  rw [hk]
  exact List.mem_append_right _ h

theorem stripStart_length_le (l : List Nat) : (stripStart l).length ≤ l.length := by
  obtain ⟨k, hk⟩ := stripStart_replicate l
  conv_rhs => rw [hk]
  simp

theorem intContent_length_le (v : List Nat) : (intContent v).length ≤ v.length + 1 := by
  unfold intContent
  have := stripStart_length_le v
  split <;> (simp only [List.length_append, List.length_cons, List.length_nil]; omega)

theorem stripOnce_intContent (v : List Nat) :
    (if 1 < (intContent v).length ∧ (intContent v).getD 0 1 = 0 then (intContent v).drop 1
     else intContent v) = stripStart v := by
  unfold intContent
  by_cases hp : (stripStart v).getD 0 0 &&& 128 ≠ 0
  · have hne : stripStart v ≠ [] := by
      intro hnil
      rw [hnil] at hp
      simp at hp
    have hlen : 0 < (stripStart v).length := List.length_pos.mpr hne
    rw [if_pos hp]
    have h1 : 1 < ([0] ++ stripStart v).length := by
      simp only [List.length_append, List.length_cons, List.length_nil]
      omega
    have h2 : ([0] ++ stripStart v).getD 0 1 = 0 := rfl
    rw [if_pos ⟨h1, h2⟩]
    simp
  · rw [if_neg hp]
    by_cases hl : 1 < (stripStart v).length
    · rw [List.nil_append, if_neg]
      rintro ⟨_, h2⟩
      exact stripStart_head_ne v hl 1 h2
    · rw [List.nil_append, if_neg]
      rintro ⟨h1, _⟩
      exact hl h1

set_option maxRecDepth 4096 in
theorem land128_iff : ∀ x < 256, (x &&& 128 ≠ 0 ↔ 128 ≤ x) := by decide

theorem encodeLength_bytes_lt (n : Nat) (h : n < 2147483648) :
    ∀ b ∈ encodeLength n, b < 256 := by
  intro b hb
  by_cases h128 : n < 128
  · simp [encodeLength, h128] at hb; omega
  · simp only [encodeLength, if_neg h128, List.mem_cons] at hb
    rcases hb with hb | hb
    · have hlen : (beBytes n).length ≤ 4 := by
        refine beBytesAux_length_le 40 n 4 ?_ (by norm_num)
        have : (256 : Nat) ^ 4 = 4294967296 := by norm_num
        omega
      subst hb
      have := lor_128 (beBytes n).length hlen
      omega
    · exact beBytesAux_lt 40 n b hb

/-! Round trip of a single DER INTEGER. -/

theorem encodeIntegerBytes_eq (b : List Nat) :
    encodeIntegerBytes b
      = INTEGER_TAG :: (encodeLength (intContent b).length ++ intContent b) := rfl

theorem decodeInteger_at (A b B : List Nat) (hn : b.length + 1 < 2147483648) :
    decodeInteger (A ++ encodeIntegerBytes b ++ B) A.length
      = .ok (stripStart b, ((encodeIntegerBytes b).length : Int)) := by
  have hE := encodeIntegerBytes_eq b
  have hclen : (intContent b).length < 2147483648 := by
    have := intContent_length_le b
    omega
  have hshape1 : A ++ encodeIntegerBytes b ++ B
      = A ++ INTEGER_TAG :: (encodeLength (intContent b).length ++ intContent b ++ B) := by
    rw [hE]; simp
  have hdatalen :
      (A ++ INTEGER_TAG :: (encodeLength (intContent b).length ++ intContent b ++ B)).length
        = A.length + 1 + (encodeLength (intContent b).length).length
            + (intContent b).length + B.length := by
    simp; omega
  rw [hshape1]
  unfold decodeInteger
  rw [if_neg (by rw [byteAt_append_mid]; simp [INTEGER_TAG])]
  have hdl : decodeLength
      (A ++ INTEGER_TAG :: (encodeLength (intContent b).length ++ intContent b ++ B))
      ((A.length : Int) + 1)
      = .ok (((intContent b).length : Int), (encodeLength (intContent b).length).length) := by
    have hshape2 : A ++ INTEGER_TAG :: (encodeLength (intContent b).length ++ intContent b ++ B)
        = (A ++ [INTEGER_TAG]) ++ encodeLength (intContent b).length ++ (intContent b ++ B) := by
      simp
    have h1 : ((A.length : Int) + 1) = (((A ++ [INTEGER_TAG]).length : Nat) : Int) := by
      simp
    rw [hshape2, h1]
    exact decodeLength_at (A ++ [INTEGER_TAG]) _ _ (intContent b).length
      (encodeLength_validLenEnc (intContent b).length hclen) hclen
  simp only [hdl]
  rw [if_neg (by rw [hdatalen]; push_cast; omega)]
  have hsub : subarray
      (A ++ INTEGER_TAG :: (encodeLength (intContent b).length ++ intContent b ++ B))
      ((A.length : Int) + 1 + ((encodeLength (intContent b).length).length : Int))
      ((A.length : Int) + 1 + ((encodeLength (intContent b).length).length : Int)
        + ((intContent b).length : Int))
      = intContent b := by
    have hshape3 : A ++ INTEGER_TAG :: (encodeLength (intContent b).length ++ intContent b ++ B)
        = ((A ++ [INTEGER_TAG]) ++ encodeLength (intContent b).length) ++ intContent b ++ B := by
      simp
    have e1 : ((A.length : Int) + 1 + ((encodeLength (intContent b).length).length : Int))
        = ((((A ++ [INTEGER_TAG]) ++ encodeLength (intContent b).length).length : Nat) : Int) := by
      simp only [List.length_append, List.length_cons, List.length_nil]
      push_cast
      ring
    rw [hshape3, e1]
    exact subarray_extract _ _ _
  rw [hsub, stripOnce_intContent b]
  have hlenE : ((1 : Int) + ((encodeLength (intContent b).length).length : Int)
      + ((intContent b).length : Int)) = ((encodeIntegerBytes b).length : Int) := by
    rw [hE]
    simp only [List.length_cons, List.length_append]
    push_cast
    ring
  rw [hlenE]

/-! Behaviour of the `decodeSequence` element loop. -/

theorem seqLoop_step (data : List Nat) (stop pos : Int) (f : Nat) (h : pos < stop)
    (ℓ : Int) (k : Nat) (hdl : decodeLength data (pos + 1) = .ok (ℓ, k)) :
    seqLoop data stop pos (f + 1)
      = match seqLoop data stop (pos + (1 + (k : Int) + ℓ)) f with
        | .error e => .error e
        | .ok rest => .ok (subarray data pos (pos + (1 + (k : Int) + ℓ)) :: rest) := by
  conv_lhs => rw [seqLoop]
  rw [if_pos h]
  simp only [hdl]

theorem seqLoop_done (data : List Nat) (stop pos : Int) (f : Nat) (h : ¬ pos < stop) :
    seqLoop data stop pos (f + 1) = .ok [] := by
  conv_lhs => rw [seqLoop]
  rw [if_neg h]

theorem seqLoop_pair (data : List Nat) (p : Nat) (f : Nat) (E1 E2 : List Nat)
    (ℓ1 ℓ2 : Int) (k1 k2 : Nat)
    (h1 : decodeLength data ((p : Int) + 1) = .ok (ℓ1, k1))
    (hT1 : (1 : Int) + k1 + ℓ1 = E1.length)
    (h2 : decodeLength data (((p + E1.length : Nat) : Int) + 1) = .ok (ℓ2, k2))
    (hT2 : (1 : Int) + k2 + ℓ2 = E2.length)
    (hs1 : subarray data (p : Int) ((p : Int) + E1.length) = E1)
    (hs2 : subarray data ((p + E1.length : Nat) : Int)
      (((p + E1.length : Nat) : Int) + E2.length) = E2)
    (hE1 : 0 < E1.length) (hE2 : 0 < E2.length) :
    seqLoop data ((p + E1.length + E2.length : Nat) : Int) (p : Int) (f + 2 + 1)
      = .ok [E1, E2] := by
  have hp2 : (p : Int) + ((1 : Int) + k1 + ℓ1) = ((p + E1.length : Nat) : Int) := by
    rw [hT1]; push_cast; ring
  have hp3 : ((p + E1.length : Nat) : Int) + ((1 : Int) + k2 + ℓ2)
      = ((p + E1.length + E2.length : Nat) : Int) := by
    rw [hT2]; push_cast; ring
  have hc1 : ((p + E1.length : Nat) : Int) = (p : Int) + E1.length := by push_cast; ring
  have hc2 : ((p + E1.length + E2.length : Nat) : Int)
      = ((p + E1.length : Nat) : Int) + E2.length := by push_cast; ring
  have hs1' : subarray data (p : Int) ((p + E1.length : Nat) : Int) = E1 := by
    rw [hc1]; exact hs1
  have hs2' : subarray data ((p + E1.length : Nat) : Int)
      ((p + E1.length + E2.length : Nat) : Int) = E2 := by
    rw [hc2]; exact hs2
  rw [seqLoop_step data _ _ (f + 2) (by push_cast; omega) ℓ1 k1 h1, hp2]
  rw [seqLoop_step data _ _ (f + 1) (by push_cast; omega) ℓ2 k2 h2, hp3]
  rw [seqLoop_done data _ _ f (by omega)]
  simp only [hs1', hs2']

theorem encodeLength_length_le (n : Nat) (h : n < 4294967296) :
    (encodeLength n).length ≤ 5 := by
  by_cases h128 : n < 128
  · simp [encodeLength, h128]
  · simp only [encodeLength, if_neg h128, List.length_cons]
    have : (beBytes n).length ≤ 4 := by
      refine beBytesAux_length_le 40 n 4 ?_ (by norm_num)
      have : (256 : Nat) ^ 4 = 4294967296 := by norm_num
      omega
    omega

theorem encodeIntegerBytes_pos (b : List Nat) : 0 < (encodeIntegerBytes b).length := by
  rw [encodeIntegerBytes_eq]
  simp

theorem encodeIntegerBytes_len (b : List Nat) :
    (encodeIntegerBytes b).length
      = 1 + (encodeLength (intContent b).length).length + (intContent b).length := by
  rw [encodeIntegerBytes_eq]
  simp only [List.length_cons, List.length_append]
  omega

set_option maxHeartbeats 1000000 in
theorem decodeSequence_encodeSignatureBytes (r s : List Nat)
    (hrs : r.length + s.length ≤ 1073741824) :
    decodeSequence (encodeSignatureBytes r s) 0
      = .ok ([encodeIntegerBytes r, encodeIntegerBytes s],
          1 + ((encodeLength ((encodeIntegerBytes r).length
              + (encodeIntegerBytes s).length)).length : Int)
            + (((encodeIntegerBytes r).length + (encodeIntegerBytes s).length : Nat) : Int)) := by
  have hc1lt : (intContent r).length < 2147483648 := by
    have := intContent_length_le r; omega
  have hc2lt : (intContent s).length < 2147483648 := by
    have := intContent_length_le s; omega
  have hE1len := encodeIntegerBytes_len r
  have hE2len := encodeIntegerBytes_len s
  have hL1le : (encodeLength (intContent r).length).length ≤ 5 :=
    encodeLength_length_le _ (by omega)
  have hL2le : (encodeLength (intContent s).length).length ≤ 5 :=
    encodeLength_length_le _ (by omega)
  have hE1le : (encodeIntegerBytes r).length ≤ r.length + 7 := by
    have := intContent_length_le r; omega
  have hE2le : (encodeIntegerBytes s).length ≤ s.length + 7 := by
    have := intContent_length_le s; omega
  have hE1pos := encodeIntegerBytes_pos r
  have hE2pos := encodeIntegerBytes_pos s
  have hCLlt : (encodeIntegerBytes r).length + (encodeIntegerBytes s).length
      < 2147483648 := by omega
  have hconcat : concatAll [encodeIntegerBytes r, encodeIntegerBytes s]
      = encodeIntegerBytes r ++ encodeIntegerBytes s := by simp [concatAll]
  have hdata : encodeSignatureBytes r s
      = SEQUENCE_TAG :: (encodeLength ((encodeIntegerBytes r).length
          + (encodeIntegerBytes s).length)
          ++ (encodeIntegerBytes r ++ encodeIntegerBytes s)) := by
    simp [encodeSignatureBytes, encodeSequence, hconcat]
  rw [hdata]
  unfold decodeSequence
  rw [if_neg (by simp only [Nat.cast_zero, byteAt_cons_zero]; simp [SEQUENCE_TAG])]
  have hdl : decodeLength
      (SEQUENCE_TAG :: (encodeLength ((encodeIntegerBytes r).length
          + (encodeIntegerBytes s).length)
          ++ (encodeIntegerBytes r ++ encodeIntegerBytes s)))
      (((0 : Nat) : Int) + 1)
      = .ok ((((encodeIntegerBytes r).length + (encodeIntegerBytes s).length : Nat) : Int),
          (encodeLength ((encodeIntegerBytes r).length
            + (encodeIntegerBytes s).length)).length) := by
    have hsh : SEQUENCE_TAG :: (encodeLength ((encodeIntegerBytes r).length
          + (encodeIntegerBytes s).length)
          ++ (encodeIntegerBytes r ++ encodeIntegerBytes s))
        = [SEQUENCE_TAG] ++ encodeLength ((encodeIntegerBytes r).length
            + (encodeIntegerBytes s).length)
            ++ (encodeIntegerBytes r ++ encodeIntegerBytes s) := by simp
    have hoff : (((0 : Nat) : Int) + 1) = ((([SEQUENCE_TAG] : List Nat).length : Nat) : Int) := by
      simp
    rw [hsh, hoff]
    exact decodeLength_at [SEQUENCE_TAG] _ _ _ (encodeLength_validLenEnc _ hCLlt) hCLlt
  simp only [hdl]
  have hdlen : (SEQUENCE_TAG :: (encodeLength ((encodeIntegerBytes r).length
        + (encodeIntegerBytes s).length)
        ++ (encodeIntegerBytes r ++ encodeIntegerBytes s))).length
      = 1 + (encodeLength ((encodeIntegerBytes r).length
          + (encodeIntegerBytes s).length)).length
        + ((encodeIntegerBytes r).length + (encodeIntegerBytes s).length) := by
    simp only [List.length_cons, List.length_append]
    omega
  rw [if_neg (by rw [hdlen]; push_cast; omega)]
  have hstart : ((0 : Nat) : Int) + 1 + ((encodeLength ((encodeIntegerBytes r).length
        + (encodeIntegerBytes s).length)).length : Int)
      = ((1 + (encodeLength ((encodeIntegerBytes r).length
          + (encodeIntegerBytes s).length)).length : Nat) : Int) := by
    push_cast; ring
  rw [hstart]
  have hstop : ((1 + (encodeLength ((encodeIntegerBytes r).length
        + (encodeIntegerBytes s).length)).length : Nat) : Int)
      + (((encodeIntegerBytes r).length + (encodeIntegerBytes s).length : Nat) : Int)
      = ((1 + (encodeLength ((encodeIntegerBytes r).length
          + (encodeIntegerBytes s).length)).length
          + (encodeIntegerBytes r).length + (encodeIntegerBytes s).length : Nat) : Int) := by
    push_cast; ring
  rw [hstop]
  have hT1 : (1 : Int) + ((encodeLength (intContent r).length).length : Int)
      + ((intContent r).length : Int) = ((encodeIntegerBytes r).length : Int) := by
    rw [hE1len]; push_cast; ring
  have hT2 : (1 : Int) + ((encodeLength (intContent s).length).length : Int)
      + ((intContent s).length : Int) = ((encodeIntegerBytes s).length : Int) := by
    rw [hE2len]; push_cast; ring
  have h1 : decodeLength
      (SEQUENCE_TAG :: (encodeLength ((encodeIntegerBytes r).length
          + (encodeIntegerBytes s).length)
          ++ (encodeIntegerBytes r ++ encodeIntegerBytes s)))
      (((1 + (encodeLength ((encodeIntegerBytes r).length
          + (encodeIntegerBytes s).length)).length : Nat) : Int) + 1)
      = .ok (((intContent r).length : Int),
          (encodeLength (intContent r).length).length) := by
    have hsh1 : SEQUENCE_TAG :: (encodeLength ((encodeIntegerBytes r).length
          + (encodeIntegerBytes s).length)
          ++ (encodeIntegerBytes r ++ encodeIntegerBytes s))
        = (SEQUENCE_TAG :: (encodeLength ((encodeIntegerBytes r).length
            + (encodeIntegerBytes s).length) ++ [INTEGER_TAG]))
          ++ encodeLength (intContent r).length
          ++ (intContent r ++ encodeIntegerBytes s) := by
      have hgen : ∀ L : List Nat,
          SEQUENCE_TAG :: (L ++ (encodeIntegerBytes r ++ encodeIntegerBytes s))
            = (SEQUENCE_TAG :: (L ++ [INTEGER_TAG])) ++ encodeLength (intContent r).length
              ++ (intContent r ++ encodeIntegerBytes s) := by
        intro L
        conv_lhs => rw [encodeIntegerBytes_eq r]
        simp
      exact hgen _
    have hoff1 : (((1 + (encodeLength ((encodeIntegerBytes r).length
          + (encodeIntegerBytes s).length)).length : Nat) : Int) + 1)
        = (((SEQUENCE_TAG :: (encodeLength ((encodeIntegerBytes r).length
            + (encodeIntegerBytes s).length) ++ [INTEGER_TAG])).length : Nat) : Int) := by
      simp only [List.length_cons, List.length_append, List.length_singleton,
        List.length_nil]
      push_cast
      omega
    rw [hsh1, hoff1]
    exact decodeLength_at _ _ _ _ (encodeLength_validLenEnc _ hc1lt) hc1lt
  have h2 : decodeLength
      (SEQUENCE_TAG :: (encodeLength ((encodeIntegerBytes r).length
          + (encodeIntegerBytes s).length)
          ++ (encodeIntegerBytes r ++ encodeIntegerBytes s)))
      (((1 + (encodeLength ((encodeIntegerBytes r).length
          + (encodeIntegerBytes s).length)).length
          + (encodeIntegerBytes r).length : Nat) : Int) + 1)
      = .ok (((intContent s).length : Int),
          (encodeLength (intContent s).length).length) := by
    have hsh2 : SEQUENCE_TAG :: (encodeLength ((encodeIntegerBytes r).length
          + (encodeIntegerBytes s).length)
          ++ (encodeIntegerBytes r ++ encodeIntegerBytes s))
        = (SEQUENCE_TAG :: (encodeLength ((encodeIntegerBytes r).length
            + (encodeIntegerBytes s).length) ++ encodeIntegerBytes r ++ [INTEGER_TAG]))
          ++ encodeLength (intContent s).length ++ intContent s := by
      have hgen : ∀ L : List Nat,
          SEQUENCE_TAG :: (L ++ (encodeIntegerBytes r ++ encodeIntegerBytes s))
            = (SEQUENCE_TAG :: (L ++ encodeIntegerBytes r ++ [INTEGER_TAG]))
              ++ encodeLength (intContent s).length ++ intContent s := by
        intro L
        conv_lhs => rw [encodeIntegerBytes_eq s]
        simp
      exact hgen _
    have hoff2 : (((1 + (encodeLength ((encodeIntegerBytes r).length
          + (encodeIntegerBytes s).length)).length
          + (encodeIntegerBytes r).length : Nat) : Int) + 1)
        = (((SEQUENCE_TAG :: (encodeLength ((encodeIntegerBytes r).length
            + (encodeIntegerBytes s).length) ++ encodeIntegerBytes r
            ++ [INTEGER_TAG])).length : Nat) : Int) := by
      simp only [List.length_cons, List.length_append, List.length_singleton,
        List.length_nil]
      push_cast
      omega
    rw [hsh2, hoff2]
    exact decodeLength_at _ _ _ _ (encodeLength_validLenEnc _ hc2lt) hc2lt
  have hs1 : subarray
      (SEQUENCE_TAG :: (encodeLength ((encodeIntegerBytes r).length
          + (encodeIntegerBytes s).length)
          ++ (encodeIntegerBytes r ++ encodeIntegerBytes s)))
      ((1 + (encodeLength ((encodeIntegerBytes r).length
          + (encodeIntegerBytes s).length)).length : Nat) : Int)
      (((1 + (encodeLength ((encodeIntegerBytes r).length
          + (encodeIntegerBytes s).length)).length : Nat) : Int)
        + ((encodeIntegerBytes r).length : Int))
      = encodeIntegerBytes r := by
    have hshA : SEQUENCE_TAG :: (encodeLength ((encodeIntegerBytes r).length
          + (encodeIntegerBytes s).length)
          ++ (encodeIntegerBytes r ++ encodeIntegerBytes s))
        = (SEQUENCE_TAG :: encodeLength ((encodeIntegerBytes r).length
            + (encodeIntegerBytes s).length))
          ++ encodeIntegerBytes r ++ encodeIntegerBytes s := by
      simp
    have hoffA : ((1 + (encodeLength ((encodeIntegerBytes r).length
          + (encodeIntegerBytes s).length)).length : Nat) : Int)
        = (((SEQUENCE_TAG :: encodeLength ((encodeIntegerBytes r).length
            + (encodeIntegerBytes s).length)).length : Nat) : Int) := by
      simp only [List.length_cons]
      push_cast
      omega
    rw [hshA, hoffA]
    exact subarray_extract _ _ _
  have hs2 : subarray
      (SEQUENCE_TAG :: (encodeLength ((encodeIntegerBytes r).length
          + (encodeIntegerBytes s).length)
          ++ (encodeIntegerBytes r ++ encodeIntegerBytes s)))
      ((1 + (encodeLength ((encodeIntegerBytes r).length
          + (encodeIntegerBytes s).length)).length
          + (encodeIntegerBytes r).length : Nat) : Int)
      (((1 + (encodeLength ((encodeIntegerBytes r).length
          + (encodeIntegerBytes s).length)).length
          + (encodeIntegerBytes r).length : Nat) : Int)
        + ((encodeIntegerBytes s).length : Int))
      = encodeIntegerBytes s := by
    have hshB : SEQUENCE_TAG :: (encodeLength ((encodeIntegerBytes r).length
          + (encodeIntegerBytes s).length)
          ++ (encodeIntegerBytes r ++ encodeIntegerBytes s))
        = ((SEQUENCE_TAG :: encodeLength ((encodeIntegerBytes r).length
            + (encodeIntegerBytes s).length)) ++ encodeIntegerBytes r)
          ++ encodeIntegerBytes s ++ [] := by
      simp
    have hoffB : ((1 + (encodeLength ((encodeIntegerBytes r).length
          + (encodeIntegerBytes s).length)).length
          + (encodeIntegerBytes r).length : Nat) : Int)
        = ((((SEQUENCE_TAG :: encodeLength ((encodeIntegerBytes r).length
            + (encodeIntegerBytes s).length)) ++ encodeIntegerBytes r).length : Nat) : Int) := by
      simp only [List.length_cons, List.length_append]
      push_cast
      omega
    rw [hshB, hoffB]
    exact subarray_extract _ _ _
  have hfuel : (SEQUENCE_TAG :: (encodeLength ((encodeIntegerBytes r).length
        + (encodeIntegerBytes s).length)
        ++ (encodeIntegerBytes r ++ encodeIntegerBytes s))).length + 1
      = ((encodeLength ((encodeIntegerBytes r).length
          + (encodeIntegerBytes s).length)).length
          + (encodeIntegerBytes r).length + (encodeIntegerBytes s).length - 1) + 2 + 1 := by
    rw [hdlen]
    omega
  rw [hfuel, seqLoop_pair _
    (1 + (encodeLength ((encodeIntegerBytes r).length
      + (encodeIntegerBytes s).length)).length)
    ((encodeLength ((encodeIntegerBytes r).length
      + (encodeIntegerBytes s).length)).length
      + (encodeIntegerBytes r).length + (encodeIntegerBytes s).length - 1)
    (encodeIntegerBytes r) (encodeIntegerBytes s)
    _ _ _ _ h1 hT1 h2 hT2 hs1 hs2 hE1pos hE2pos]

theorem decodeSignature_encodeSignatureBytes (r s : List Nat)
    (hrs : r.length + s.length ≤ 1073741824) :
    decodeSignature (encodeSignatureBytes r s)
      = .ok (hexEncode (stripStart r), hexEncode (stripStart s)) := by
  unfold decodeSignature
  simp only [decodeSequence_encodeSignatureBytes r s hrs]
  rw [if_neg (by simp)]
  have hg0 : ([encodeIntegerBytes r, encodeIntegerBytes s].getD 0 ([] : List Nat))
      = encodeIntegerBytes r := rfl
  have hg1 : ([encodeIntegerBytes r, encodeIntegerBytes s].getD 1 ([] : List Nat))
      = encodeIntegerBytes s := rfl
  rw [hg0, hg1]
  have hdi1 : decodeInteger (encodeIntegerBytes r) 0
      = .ok (stripStart r, ((encodeIntegerBytes r).length : Int)) := by
    have h := decodeInteger_at [] r [] (by omega)
    simpa using h
  have hdi2 : decodeInteger (encodeIntegerBytes s) 0
      = .ok (stripStart s, ((encodeIntegerBytes s).length : Int)) := by
    have h := decodeInteger_at [] s [] (by omega)
    simpa using h
  simp only [hdi1, hdi2]

/-! Facts about the hex codec. -/

theorem hexEncode_append (a b : List Nat) :
    hexEncode (a ++ b) = hexEncode a ++ hexEncode b := by
  induction a with
  | nil => rfl
  | cons x rest ih => simp [hexEncode, ih]

theorem hexEncode_length (l : List Nat) : (hexEncode l).length = 2 * l.length := by
  induction l with
  | nil => rfl
  | cons x rest ih => simp [hexEncode, byteToHexChars, ih]; omega

theorem hexEncode_replicate_zero (k : Nat) :
    hexEncode (List.replicate k 0) = List.replicate (2 * k) '0' := by
  induction k with
  | zero => rfl
  | succ k ih =>
    have h2 : 2 * (k + 1) = 2 * k + 1 + 1 := by ring
    rw [List.replicate_succ, h2, List.replicate_succ, List.replicate_succ]
    simp only [hexEncode, ih]
    rfl

theorem isLowerHex_jsHexDigit {c : Char} (h : isLowerHex c) : jsHexDigit c := by
  unfold isLowerHex at h
  unfold jsHexDigit
  omega

theorem isLowerHex_not_space {c : Char} (h : isLowerHex c) : ¬ isJsSpace c := by
  intro hs
  unfold isLowerHex at h
  simp only [isJsSpace, List.mem_cons, List.not_mem_nil, or_false] at hs
  omega

theorem hexDigitVal_lt {c : Char} (h : jsHexDigit c) : hexDigitVal c < 16 := by
  unfold jsHexDigit at h
  unfold hexDigitVal
  split_ifs <;> omega

theorem parseIntHexPair_lowerHex {c0 c1 : Char} (h0 : isLowerHex c0) (h1 : isLowerHex c1) :
    parseIntHexPair c0 c1
      = some ((hexDigitVal c0 : Int) * 16 + (hexDigitVal c1 : Int)) := by
  unfold parseIntHexPair
  rw [if_neg (isLowerHex_not_space h0)]
  rw [if_neg (show c0 ≠ '+' by rintro rfl; exact absurd h0 (by decide))]
  rw [if_neg (show c0 ≠ '-' by rintro rfl; exact absurd h0 (by decide))]
  rw [if_neg (show ¬ (c0 = '0' ∧ (c1 = 'x' ∨ c1 = 'X')) by
    rintro ⟨-, hx | hx⟩ <;> (subst hx; exact absurd h1 (by decide)))]
  rw [if_pos (isLowerHex_jsHexDigit h0), if_pos (isLowerHex_jsHexDigit h1)]

theorem storeUint8_lowerHex {c0 c1 : Char} (h0 : isLowerHex c0) (h1 : isLowerHex c1) :
    storeUint8 (parseIntHexPair c0 c1) = hexDigitVal c0 * 16 + hexDigitVal c1 := by
  rw [parseIntHexPair_lowerHex h0 h1]
  simp only [storeUint8]
  have l0 := hexDigitVal_lt (isLowerHex_jsHexDigit h0)
  have l1 := hexDigitVal_lt (isLowerHex_jsHexDigit h1)
  omega

theorem hexDigitChar_val {c : Char} (h : isLowerHex c) :
    hexDigitChar (hexDigitVal c) = c := by
  rcases h with ⟨h1, h2⟩ | ⟨h1, h2⟩
  · unfold hexDigitVal
    rw [if_pos (by omega)]
    unfold hexDigitChar
    rw [if_pos (by omega)]
    have he : c.toNat - 48 + 48 = c.toNat := by omega
    rw [he, Char.ofNat_toNat]
  · unfold hexDigitVal
    rw [if_neg (by omega), if_neg (by omega)]
    unfold hexDigitChar
    rw [if_neg (by omega)]
    have he : c.toNat - 87 + 87 = c.toNat := by omega
    rw [he, Char.ofNat_toNat]

theorem byteToHexChars_val {c0 c1 : Char} (h0 : isLowerHex c0) (h1 : isLowerHex c1) :
    byteToHexChars (hexDigitVal c0 * 16 + hexDigitVal c1) = [c0, c1] := by
  have l0 := hexDigitVal_lt (isLowerHex_jsHexDigit h0)
  have l1 := hexDigitVal_lt (isLowerHex_jsHexDigit h1)
  unfold byteToHexChars
  have hdiv : (hexDigitVal c0 * 16 + hexDigitVal c1) / 16 = hexDigitVal c0 := by omega
  have hmod : (hexDigitVal c0 * 16 + hexDigitVal c1) % 16 = hexDigitVal c1 := by omega
  rw [hdiv, hmod, hexDigitChar_val h0, hexDigitChar_val h1]

theorem hexDecodePairs_lowerHex (s : List Char) :
    (∀ c ∈ s, isLowerHex c) → s.length % 2 = 0 →
    hexEncode (hexDecodePairs s) = s ∧ (hexDecodePairs s).length = s.length / 2
      ∧ ∀ b ∈ hexDecodePairs s, b < 256 := by
  induction s using hexDecodePairs.induct with
  | case1 c0 c1 rest ih =>
    intro hc he
    have h0 : isLowerHex c0 := hc _ (by simp)
    have h1 : isLowerHex c1 := hc _ (by simp)
    have l0 := hexDigitVal_lt (isLowerHex_jsHexDigit h0)
    have l1 := hexDigitVal_lt (isLowerHex_jsHexDigit h1)
    obtain ⟨ihe, ihl, ihb⟩ := ih (fun c hc' => hc _ (by simp [hc']))
      (by simp only [List.length_cons] at he ⊢; omega)
    have hpair : hexDecodePairs (c0 :: c1 :: rest)
        = (hexDigitVal c0 * 16 + hexDigitVal c1) :: hexDecodePairs rest := by
      simp [hexDecodePairs, storeUint8_lowerHex h0 h1]
    refine ⟨?_, ?_, ?_⟩
    · rw [hpair]
      simp only [hexEncode, byteToHexChars_val h0 h1, ihe]
      rfl
    · rw [hpair]
      simp only [List.length_cons, ihl]
      omega
    · rw [hpair]
      intro b hb
      rcases List.mem_cons.mp hb with hb | hb
      · omega
      · exact ihb b hb
  | case2 s h =>
    match s, h with
    | [], _ => intro _ _; simp [hexDecodePairs, hexEncode]
    | [c], _ =>
      intro _ he
      simp at he
    | c0 :: c1 :: rest, h => exact absurd rfl (h c0 c1 rest)

theorem hexDecode_even (s : List Char) (he : s.length % 2 = 0) :
    hexDecode s = .ok (hexDecodePairs s) := by
  unfold hexDecode
  rw [if_neg (by omega)]

theorem hexDecodePairs_length (s : List Char) :
    (hexDecodePairs s).length = s.length / 2 := by
  induction s using hexDecodePairs.induct with
  | case1 c0 c1 rest ih =>
    simp only [hexDecodePairs, List.length_cons, ih]
    omega
  | case2 s h =>
    match s, h with
    | [], _ => rfl
    | [c], _ => simp [hexDecodePairs]
    | c0 :: c1 :: rest, h => exact absurd rfl (h c0 c1 rest)

theorem isLowerHex_hexDigitChar : ∀ n < 16, isLowerHex (hexDigitChar n) := by
  intro n hn
  interval_cases n <;> decide

theorem mem_hexEncode {l : List Nat} (hb : ∀ b ∈ l, b < 256) :
    ∀ c ∈ hexEncode l, isLowerHex c := by
  induction l with
  | nil => simp [hexEncode]
  | cons x rest ih =>
    intro c hc
    have hx : x < 256 := hb x (by simp)
    simp only [hexEncode, byteToHexChars, List.cons_append, List.nil_append,
      List.mem_cons] at hc
    rcases hc with hc | hc | hc
    · subst hc; exact isLowerHex_hexDigitChar _ (by omega)
    · subst hc; exact isLowerHex_hexDigitChar _ (by omega)
    · exact ih (fun b hb' => hb b (by simp [hb'])) c hc

/-! Facts about zero padding. -/

theorem padStart_hexEncode (r : List Nat) (hlen : r.length = 32) :
    padStart (hexEncode (stripStart r)) 64 '0' = hexEncode r := by
  obtain ⟨k, hk⟩ := stripStart_replicate r
  have hsl : k + (stripStart r).length = 32 := by
    have h := congrArg List.length hk
    simp only [List.length_append, List.length_replicate] at h
    omega
  unfold padStart
  rw [hexEncode_length]
  conv_rhs => rw [hk]
  rw [hexEncode_append, hexEncode_replicate_zero]
  have : 64 - 2 * (stripStart r).length = 2 * k := by omega
  rw [this]

/-! Relating the stripping loop to the spec's description. -/

theorem stripStart_eq_dropWhile (v : List Nat) (hv : v ≠ []) :
    stripStart v
      = (if v.dropWhile (fun b => b == 0) = [] then [0]
         else v.dropWhile (fun b => b == 0)) := by
  induction v using stripStart.induct with
  | case1 b rest ih =>
    rw [stripStart_cons_zero, ih (by simp)]
    simp [List.dropWhile]
  | case2 a b rest ha =>
    have hb : (a == 0) = false := by simpa using ha
    simp [stripStart, ha, List.dropWhile, hb]
  | case3 bytes h =>
    match bytes, h with
    | [], _ => exact absurd rfl hv
    | [b], _ =>
      by_cases hb : b = 0
      · subst hb; simp [stripStart, List.dropWhile]
      · have hb' : (b == 0) = false := by simpa using hb
        simp [stripStart, List.dropWhile, hb']
    | a :: b :: rest, h => exact absurd rfl (h a b rest)

theorem getD_eq_headD (l : List Nat) (d : Nat) : l.getD 0 d = l.headD d := by
  cases l <;> rfl

theorem intContent_eq_derIntMinimal (v : List Nat) (hv : v ≠ [])
    (hb : ∀ b ∈ v, b < 256) : intContent v = derIntMinimal v := by
  have hnn := stripStart_ne_nil v hv
  have hdw := stripStart_eq_dropWhile v hv
  have hhead : (stripStart v).headD 0 < 256 := by
    match hst : stripStart v with
    | [] => exact absurd hst hnn
    | x :: t =>
      have : x ∈ stripStart v := by rw [hst]; simp
      exact hb x (mem_stripStart this)
  have hpad : ((stripStart v).getD 0 0 &&& 128 ≠ 0) ↔ (128 ≤ (stripStart v).headD 0) := by
    rw [getD_eq_headD]
    exact land128_iff _ hhead
  have hrhs : derIntMinimal v
      = if 128 ≤ (stripStart v).headD 0 then 0 :: stripStart v else stripStart v := by
    simp only [derIntMinimal]
    rw [← hdw]
  unfold intContent
  rw [hrhs]
  by_cases hc : 128 ≤ (stripStart v).headD 0
  · rw [if_pos (hpad.mpr hc), if_pos hc]
    rfl
  · rw [if_neg (fun h => hc (hpad.mp h)), if_neg hc]
    rfl

/-! Facts needed for the 32-bit length overflow. -/

theorem beVal_lt (bs : List Nat) (h : ∀ b ∈ bs, b < 256) :
    beVal bs < 256 ^ bs.length := by
  induction bs with
  | nil => simp [beVal]
  | cons b rest ih =>
    rw [beVal_cons, List.length_cons]
    have hb : b < 256 := h b (by simp)
    have hr : beVal rest < 256 ^ rest.length := ih (fun x hx => h x (by simp [hx]))
    calc b * 256 ^ rest.length + beVal rest
        < b * 256 ^ rest.length + 256 ^ rest.length :=
          Nat.add_lt_add_left hr _
      _ = (b + 1) * 256 ^ rest.length := by ring
      _ ≤ 256 * 256 ^ rest.length := Nat.mul_le_mul_right _ (by omega)
      _ = 256 ^ (rest.length + 1) := by ring

theorem jsShl8Or_overflow (acc : Int) (b : Nat) (h0 : 0 ≤ acc) (hb : b < 256)
    (hlo : 2147483648 ≤ acc * 256 + b) (hhi : acc * 256 + b < 4294967296) :
    jsShl8Or acc b = acc * 256 + b - 4294967296 := by
  unfold jsShl8Or toInt32 toUint32
  have h1 : acc % 4294967296 = acc := Int.emod_eq_of_lt h0 (by omega)
  have h2 : acc * 256 % 4294967296 = acc * 256 :=
    Int.emod_eq_of_lt (by positivity) (by omega)
  rw [h1, h2, h2, if_neg (by omega)]
  omega

theorem lenLoop_four (b0 b1 b2 b3 : Nat) (h0 : b0 < 256) (h1 : b1 < 256)
    (h2 : b2 < 256) (h3 : b3 < 256) (hhi : 128 ≤ b0) :
    lenLoop [b0, b1, b2, b3] = (beVal [b0, b1, b2, b3] : Int) - 4294967296 := by
  have hbv : (beVal [b0, b1, b2, b3] : Int)
      = (((b0 : Int) * 256 + b1) * 256 + b2) * 256 + b3 := by
    simp only [beVal, List.foldl_cons, List.foldl_nil]
    push_cast
    ring
  have e1 : jsShl8Or 0 b0 = (b0 : Int) := by
    have h := jsShl8Or_eq_of_lt 0 b0 le_rfl (by omega)
    simpa using h
  have e2 : jsShl8Or (b0 : Int) b1 = (b0 : Int) * 256 + b1 :=
    jsShl8Or_eq_of_lt _ _ (by omega) (by omega)
  have e3 : jsShl8Or ((b0 : Int) * 256 + b1) b2
      = ((b0 : Int) * 256 + b1) * 256 + b2 :=
    jsShl8Or_eq_of_lt _ _ (by omega) (by omega)
  have e4 : jsShl8Or (((b0 : Int) * 256 + b1) * 256 + b2) b3
      = (((b0 : Int) * 256 + b1) * 256 + b2) * 256 + b3 - 4294967296 :=
    jsShl8Or_overflow _ _ (by omega) (by omega) (by omega) (by omega)
  simp only [lenLoop, List.foldl_cons, List.foldl_nil, e1, e2, e3, e4, hbv]

theorem subarray_start_ge (data : List Nat) (b e : Int) (h0 : 0 ≤ b)
    (h : (data.length : Int) ≤ b) : subarray data b e = [] := by
  unfold subarray
  simp only [if_neg (show ¬ b < 0 by omega), min_eq_right h]
  refine List.drop_eq_nil_of_le ?_
  have := List.length_take_le ((if e < 0 then
    max ((data.length : Int) + e) 0 else min e (data.length : Int)).toNat) data
  omega

theorem subarray_neg_end (data : List Nat) (b e : Int) (h0 : 0 ≤ b)
    (hb : b ≤ (data.length : Int)) (he : e < 0) (hne : 0 ≤ (data.length : Int) + e) :
    subarray data b e = (data.take ((data.length : Int) + e).toNat).drop b.toNat := by
  have hb' : ¬ b < 0 := by omega
  simp only [subarray, if_neg hb', if_pos he, max_eq_left hne, min_eq_left hb]

theorem decodeLength_four_at (A B : List Nat) (b0 b1 b2 b3 : Nat)
    (h0 : b0 < 256) (h1 : b1 < 256) (h2 : b2 < 256) (h3 : b3 < 256)
    (hhi : 128 ≤ b0) :
    decodeLength (A ++ [132, b0, b1, b2, b3] ++ B) A.length
      = .ok ((beVal [b0, b1, b2, b3] : Int) - 4294967296, 5) := by
  have hnb : (132 : Nat) &&& 127 = 4 := by decide
  have hsh : A ++ [132, b0, b1, b2, b3] ++ B
      = A ++ 132 :: ([b0, b1, b2, b3] ++ B) := by simp
  rw [hsh]
  unfold decodeLength
  have hlen : (A ++ 132 :: ([b0, b1, b2, b3] ++ B)).length
      = A.length + 5 + B.length := by simp; omega
  rw [if_neg (by rw [hlen]; push_cast; omega)]
  simp only [byteAt_append_mid]
  rw [if_neg (by omega)]
  simp only [hnb]
  rw [if_neg (by omega), if_neg (by rw [hlen]; push_cast; omega)]
  have hdrop : ((A.length : Int) + 1).toNat = (A ++ [132]).length := by simp
  have hsh2 : A ++ 132 :: ([b0, b1, b2, b3] ++ B)
      = (A ++ [132]) ++ ([b0, b1, b2, b3] ++ B) := by simp
  rw [hdrop, hsh2, List.drop_left,
    List.take_left' (show ([b0, b1, b2, b3] : List Nat).length = 4 from rfl),
    lenLoop_four b0 b1 b2 b3 h0 h1 h2 h3 hhi]

/-! Rejection behaviour of `decodeLength`. -/

theorem decodeLength_reject {data : List Nat} {off : Int} {fb : Nat}
    (h : byteAt data off = some fb) (hhi : 128 ≤ fb)
    (hbad : fb &&& 127 = 0 ∨ 4 < fb &&& 127) :
    decodeLength data off = .error "Invalid or unsupported long form length" := by
  have hb := byteAt_bounds h
  unfold decodeLength
  rw [if_neg (by omega)]
  simp only [h]
  rw [if_neg (by omega), if_pos (by omega)]

theorem decodeLength_accept {data : List Nat} {off : Int} {fb : Nat}
    (h : byteAt data off = some fb) (hhi : 128 ≤ fb)
    (h1 : 1 ≤ fb &&& 127) (h4 : fb &&& 127 ≤ 4)
    (hin : off + 1 + ((fb &&& 127 : Nat) : Int) ≤ (data.length : Int)) :
    ∃ res, decodeLength data off = .ok res := by
  have hb := byteAt_bounds h
  unfold decodeLength
  rw [if_neg (by omega)]
  simp only [h]
  rw [if_neg (by omega), if_neg (by omega), if_neg (by omega)]
  exact ⟨_, rfl⟩

/-! The raw / DER conversion pipeline. -/

theorem subarray_0_32 (bytes : List Nat) (hlen : bytes.length = 64) :
    subarray bytes 0 32 = bytes.take 32 := by
  rw [subarray_eq_take_drop bytes 0 32 (by omega) (by omega) (by omega) (by omega)]
  simp

theorem subarray_32_64 (bytes : List Nat) (hlen : bytes.length = 64) :
    subarray bytes 32 64 = bytes.drop 32 := by
  rw [subarray_eq_take_drop bytes 32 64 (by omega) (by omega) (by omega) (by omega)]
  have h64 : (64 : Int).toNat = bytes.length := by omega
  rw [h64, List.take_length]
  rfl

theorem rawToDer_bytes_eq (bytes : List Nat) (hlen : bytes.length = 64) :
    rawToDer (.bytes bytes)
      = .ok (encodeSignatureBytes (bytes.take 32) (bytes.drop 32)) := by
  simp only [rawToDer]
  rw [if_neg (by omega), subarray_0_32 bytes hlen, subarray_32_64 bytes hlen]

theorem derToRaw_encodeSig (bytes : List Nat) (hlen : bytes.length = 64) :
    derToRaw (encodeSignatureBytes (bytes.take 32) (bytes.drop 32))
      = .ok (hexEncode bytes) := by
  have h32a : (bytes.take 32).length = 32 := by simp [hlen]
  have h32b : (bytes.drop 32).length = 32 := by simp [hlen]
  have hds := decodeSignature_encodeSignatureBytes (bytes.take 32) (bytes.drop 32)
    (by rw [h32a, h32b]; omega)
  unfold derToRaw
  simp only [hds]
  rw [padStart_hexEncode _ h32a, padStart_hexEncode _ h32b, ← hexEncode_append,
    List.take_append_drop]

/-! Claim theorems. -/

/-- C1: for every 64-byte raw signature, given either as a 128-character
lowercase hex string or as a 64-byte array, `rawToDer` succeeds, and
`derToRaw (rawToDer s)` returns the 128-character lowercase hex string
representing `s`, with the `r` and `s` halves zero-padded back to exactly
32 bytes (64 hex characters) each. -/
theorem C1_raw_der_roundTrip :
    (∀ bytes : List Nat, bytes.length = 64 → (∀ b ∈ bytes, b < 256) →
      ∃ der, rawToDer (.bytes bytes) = .ok der
        ∧ derToRaw der = .ok (hexEncode bytes)
        ∧ (hexEncode bytes).length = 128
        ∧ ∀ c ∈ hexEncode bytes, isLowerHex c) ∧
    (∀ s : List Char, s.length = 128 → (∀ c ∈ s, isLowerHex c) →
      ∃ der, rawToDer (.str s) = .ok der ∧ derToRaw der = .ok s) := by
  constructor
  · intro bytes hlen hb
    refine ⟨_, rawToDer_bytes_eq bytes hlen, derToRaw_encodeSig bytes hlen, ?_, ?_⟩
    · rw [hexEncode_length, hlen]
    · exact mem_hexEncode hb
  · intro s hs hc
    obtain ⟨henc, hlenp, hbp⟩ := hexDecodePairs_lowerHex s hc (by omega)
    have hblen : (hexDecodePairs s).length = 64 := by rw [hlenp, hs]
    have hder : rawToDer (.str s)
        = .ok (encodeSignatureBytes ((hexDecodePairs s).take 32)
            ((hexDecodePairs s).drop 32)) := by
      simp only [rawToDer]
      rw [if_neg (by omega)]
      simp only [hexDecode_even s (by omega)]
      rw [subarray_0_32 _ hblen, subarray_32_64 _ hblen]
    refine ⟨_, hder, ?_⟩
    rw [derToRaw_encodeSig _ hblen, henc]

/-- C1 witness: the theorem applied to the all-zero 64-byte signature. -/
theorem C1_witness :
    (List.replicate 64 0).length = 64 ∧
    (∃ der, rawToDer (.bytes (List.replicate 64 0)) = .ok der
      ∧ derToRaw der = .ok (hexEncode (List.replicate 64 0))
      ∧ (hexEncode (List.replicate 64 0)).length = 128
      ∧ ∀ c ∈ hexEncode (List.replicate 64 0), isLowerHex c) :=
  ⟨by decide, C1_raw_der_roundTrip.1 (List.replicate 64 0) (by decide) (by decide)⟩

/-- C2 counterexample: with `r` given as `"0005"` — an encoding that begins
with a redundant leading zero byte — `decodeSignature (encodeSignature r s)`
returns `"05"`, not the original `"0005"`: the round trip is not the
identity on non-minimal components. -/
theorem C2_counterexample :
    encodeSignature (.str ['0', '0', '0', '5']) (.str ['0', '1'])
      = .ok [48, 6, 2, 1, 5, 2, 1, 1]
    ∧ decodeSignature [48, 6, 2, 1, 5, 2, 1, 1] = .ok (['0', '5'], ['0', '1'])
    ∧ (['0', '5'] : List Char) ≠ ['0', '0', '0', '5'] := by
  decide

/-- C2 (amended): for every pair (r, s) accepted by `encodeSignature`
(components given as even-length lowercase hex strings or byte arrays,
of reasonable total size), `decodeSignature (encodeSignature r s)` returns
the pair with each component's redundant leading zero bytes stripped to
minimal form (`stripStart`, the source's stripping loop); consequently it
equals exactly (r, s) as lowercase hex whenever neither component begins
with a redundant leading zero byte. -/
theorem C2_roundTrip_minimal :
    ∀ (v1 v2 : Bin) (r s : List Nat),
      binToBytes v1 = .ok r → binToBytes v2 = .ok s →
      r.length + s.length ≤ 1073741824 →
      ∃ der, encodeSignature v1 v2 = .ok der
        ∧ decodeSignature der
            = .ok (hexEncode (stripStart r), hexEncode (stripStart s))
        ∧ ((1 < r.length → r.headD 0 ≠ 0) → (1 < s.length → s.headD 0 ≠ 0) →
            decodeSignature der = .ok (hexEncode r, hexEncode s)) := by
  intro v1 v2 r s h1 h2 hb
  have he : encodeSignature v1 v2 = .ok (encodeSignatureBytes r s) := by
    unfold encodeSignature encodeInteger
    simp only [h1, h2]
    rfl
  refine ⟨_, he, decodeSignature_encodeSignatureBytes r s hb, fun hm1 hm2 => ?_⟩
  rw [decodeSignature_encodeSignatureBytes r s hb, stripStart_minimal r hm1,
    stripStart_minimal s hm2]

/-- C2 witness: the amended round trip at the non-minimal component
`[0x00, 0x05]` (stripped to `[0x05]` by the round trip) paired with the
minimal `[0x80]`. -/
theorem C2_witness :
    binToBytes (Bin.bytes [0, 5]) = .ok [0, 5] ∧
    (∃ der, encodeSignature (.bytes [0, 5]) (.bytes [128]) = .ok der
      ∧ decodeSignature der
          = .ok (hexEncode (stripStart [0, 5]), hexEncode (stripStart [128]))
      ∧ ((1 < ([0, 5] : List Nat).length → ([0, 5] : List Nat).headD 0 ≠ 0) →
          (1 < ([128] : List Nat).length → ([128] : List Nat).headD 0 ≠ 0) →
          decodeSignature der = .ok (hexEncode [0, 5], hexEncode [128]))) :=
  ⟨rfl, C2_roundTrip_minimal (.bytes [0, 5]) (.bytes [128]) [0, 5] [128] rfl rfl
    (by decide)⟩

/-- C3: for every non-empty byte array `v`, `encodeInteger v` is the
minimally encoded DER INTEGER — tag, length, and the content obtained by
stripping all redundant leading zero bytes (keeping at least one byte) and
inserting a single `0x00` pad byte exactly when the most significant bit of
the first remaining byte is set; in particular `encodeInteger [0x00]` is
exactly `02 01 00`. -/
theorem C3_encodeInteger_minimal :
    (∀ v : List Nat, v ≠ [] → (∀ b ∈ v, b < 256) →
      encodeIntegerBytes v
        = INTEGER_TAG :: (encodeLength (derIntMinimal v).length ++ derIntMinimal v))
    ∧ encodeIntegerBytes [0] = [2, 1, 0] := by
  constructor
  · intro v hv hb
    rw [encodeIntegerBytes_eq, intContent_eq_derIntMinimal v hv hb]
  · decide

/-- C3 witness: the theorem applied to the byte `0x80`, whose most
significant bit forces a pad byte. -/
theorem C3_witness :
    ([128] : List Nat) ≠ [] ∧
    encodeIntegerBytes [128]
      = INTEGER_TAG :: (encodeLength (derIntMinimal [128]).length
          ++ derIntMinimal [128]) :=
  ⟨by decide, C3_encodeInteger_minimal.1 [128] (by decide) (by decide)⟩

/-- C4 counterexample: a well-formed DER INTEGER declaring a content length
of `2^31` (four length bytes `80 00 00 00`, with all `2^31` declared content
bytes present in the buffer) is mis-decoded: the signed 32-bit length
arithmetic turns the length into `-2^31`, `subarray` resolves the negative
end index relative to the buffer length, and `decodeInteger` returns a
5-byte slice of the leading zeros with a negative `bytesRead` of
`6 - 2^31 = -2147483642` — not the content stripped of exactly one leading
zero byte (`2^31 - 1` bytes), nor a `bytesRead` equal to the element's full
tag+length+content size (`1 + 5 + 2^31`). -/
theorem C4_counterexample :
    decodeInteger ([2, 132, 128, 0, 0, 0] ++ List.replicate 2147483648 0) 0
        = .ok (List.replicate 5 0, -2147483642)
      ∧ (List.replicate 5 0 : List Nat)
          ≠ (List.replicate 2147483648 (0 : Nat)).drop 1
      ∧ (-2147483642 : Int) ≠ ((1 + 5 + 2147483648 : Nat) : Int) := by
  refine ⟨?_, ?_, by decide⟩
  · have key : ∀ R : List Nat, R.length = 2147483648 →
        R.take 6 = List.replicate 6 0 →
        decodeInteger ([2, 132, 128, 0, 0, 0] ++ R) 0
          = .ok (List.replicate 5 0, -2147483642) := by
      intro R hR hR6
      have hdata : ([2, 132, 128, 0, 0, 0] : List Nat) ++ R
          = 2 :: ([132, 128, 0, 0, 0] ++ R) := by simp
      have hlen : (2 :: ([132, 128, 0, 0, 0] ++ R)).length = 2147483654 := by
        simp [hR]
      rw [hdata]
      unfold decodeInteger
      rw [if_neg (by simp only [INTEGER_TAG, Nat.cast_zero, byteAt_cons_zero]; simp)]
      have hd := decodeLength_four_at [2] R 128 0 0 0
        (by omega) (by omega) (by omega) (by omega) (by omega)
      have hbv : (beVal [128, 0, 0, 0] : Int) - 4294967296 = -2147483648 := by decide
      have hsh : ([2] : List Nat) ++ [132, 128, 0, 0, 0] ++ R
          = 2 :: ([132, 128, 0, 0, 0] ++ R) := by simp
      have hoff : (([2] : List Nat).length : Int) = ((0 : Nat) : Int) + 1 := by simp
      rw [hbv, hsh, hoff] at hd
      simp only [hd]
      rw [if_neg (by rw [hlen]; norm_num)]
      have hsub : subarray (2 :: ([132, 128, 0, 0, 0] ++ R))
          (((0 : Nat) : Int) + 1 + ((5 : Nat) : Int))
          (((0 : Nat) : Int) + 1 + ((5 : Nat) : Int) + -2147483648)
          = List.replicate 6 0 := by
        rw [subarray_neg_end (2 :: ([132, 128, 0, 0, 0] ++ R))
          (((0 : Nat) : Int) + 1 + ((5 : Nat) : Int))
          (((0 : Nat) : Int) + 1 + ((5 : Nat) : Int) + -2147483648)
          (by norm_num)
          (by rw [hlen]; norm_num) (by norm_num)
          (by rw [hlen]; norm_num)]
        have ht1 : ((2 :: ([132, 128, 0, 0, 0] ++ R)).length : Int)
              + (((0 : Nat) : Int) + 1 + ((5 : Nat) : Int) + -2147483648) = 12 := by
          rw [hlen]
          norm_num
        rw [ht1]
        have ht2 : ((((0 : Nat) : Int) + 1 + ((5 : Nat) : Int)).toNat) = 6 := by omega
        have ht3 : ((12 : Int).toNat) = 12 := by omega
        rw [ht2, ht3]
        have hjoin : 2 :: ([132, 128, 0, 0, 0] ++ R)
            = [2, 132, 128, 0, 0, 0] ++ R := by simp
        rw [hjoin, List.take_append_eq_append_take]
        have htake1 : ([2, 132, 128, 0, 0, 0] : List Nat).take 12
            = [2, 132, 128, 0, 0, 0] := by decide
        have htake12 : 12 - ([2, 132, 128, 0, 0, 0] : List Nat).length = 6 := by decide
        rw [htake1, htake12, hR6,
          List.drop_left' (show ([2, 132, 128, 0, 0, 0] : List Nat).length = 6 from rfl)]
      rw [hsub]
      rw [if_pos (by decide),
        show (List.replicate 6 (0 : Nat)).drop 1 = List.replicate 5 0 from by decide,
        show (1 : Int) + ((5 : Nat) : Int) + -2147483648 = -2147483642 from by norm_num]
    exact key (List.replicate 2147483648 0) (List.length_replicate _ _)
      (by rw [List.take_replicate, min_eq_left (by norm_num)])
  · intro h
    have hl := congrArg List.length h
    simp only [List.length_replicate, List.length_drop] at hl
    omega

/-- C4 (amended): for every well-formed DER INTEGER in the input buffer (any
valid length encoding of the content length, at any position) whose content
length is below `2^31` — beyond that, the 32-bit overflow of C10 corrupts
the decoded length, as the counterexample shows — `decodeInteger` returns
the content octets after stripping exactly one leading `0x00` byte when the
content length exceeds 1 and the first content byte is `0x00`, and the
content unchanged otherwise; `bytesRead` is the full tag+length+content
size.  In particular `02 01 00` decodes to the single byte `0x00`. -/
theorem C4_decodeInteger_strip :
    (∀ (pre lb content post : List Nat),
      ValidLenEnc lb content.length → content.length < 2147483648 →
      decodeInteger (pre ++ [INTEGER_TAG] ++ lb ++ content ++ post) pre.length
        = .ok ((if 1 < content.length ∧ content.getD 0 1 = 0
              then content.drop 1 else content),
            ((1 + lb.length + content.length : Nat) : Int)))
    ∧ decodeInteger [2, 1, 0] 0 = .ok ([0], 3) := by
  constructor
  · intro pre lb content post hv hn
    have hshape1 : pre ++ [INTEGER_TAG] ++ lb ++ content ++ post
        = pre ++ INTEGER_TAG :: (lb ++ content ++ post) := by simp
    rw [hshape1]
    unfold decodeInteger
    rw [if_neg (by rw [byteAt_append_mid]; simp)]
    have hdl : decodeLength (pre ++ INTEGER_TAG :: (lb ++ content ++ post))
        ((pre.length : Int) + 1) = .ok ((content.length : Int), lb.length) := by
      have hsh2 : pre ++ INTEGER_TAG :: (lb ++ content ++ post)
          = (pre ++ [INTEGER_TAG]) ++ lb ++ (content ++ post) := by simp
      have hoff : ((pre.length : Int) + 1)
          = (((pre ++ [INTEGER_TAG]).length : Nat) : Int) := by simp
      rw [hsh2, hoff]
      exact decodeLength_at _ _ _ _ hv hn
    simp only [hdl]
    have hdatalen : (pre ++ INTEGER_TAG :: (lb ++ content ++ post)).length
        = pre.length + 1 + lb.length + content.length + post.length := by
      simp
      omega
    rw [if_neg (by rw [hdatalen]; push_cast; omega)]
    have hsub : subarray (pre ++ INTEGER_TAG :: (lb ++ content ++ post))
        ((pre.length : Int) + 1 + (lb.length : Int))
        ((pre.length : Int) + 1 + (lb.length : Int) + (content.length : Int))
        = content := by
      have hsh3 : pre ++ INTEGER_TAG :: (lb ++ content ++ post)
          = ((pre ++ [INTEGER_TAG]) ++ lb) ++ content ++ post := by simp
      have e1 : (pre.length : Int) + 1 + (lb.length : Int)
          = ((((pre ++ [INTEGER_TAG]) ++ lb).length : Nat) : Int) := by
        simp only [List.length_append, List.length_cons, List.length_nil]
        push_cast
        omega
      rw [hsh3, e1]
      exact subarray_extract _ _ _
    rw [hsub]
    have hbr : (1 : Int) + (lb.length : Int) + (content.length : Int)
        = ((1 + lb.length + content.length : Nat) : Int) := by push_cast; ring
    rw [hbr]
  · decide

/-- C4 witness: the encoding `02 01 00` inside an empty context decodes to
the single byte `0x00` with three bytes read. -/
theorem C4_witness :
    ValidLenEnc [1] ([0] : List Nat).length ∧
    decodeInteger (([] : List Nat) ++ [INTEGER_TAG] ++ [1] ++ [0] ++ [])
        ([] : List Nat).length
      = .ok ((if 1 < ([0] : List Nat).length ∧ ([0] : List Nat).getD 0 1 = 0
            then ([0] : List Nat).drop 1 else [0]),
          ((1 + ([1] : List Nat).length + ([0] : List Nat).length : Nat) : Int)) :=
  ⟨Or.inl ⟨by decide, rfl⟩,
    C4_decodeInteger_strip.1 [] [1] [0] [] (Or.inl ⟨by decide, rfl⟩) (by decide)⟩

/-- C5: DER length decoding throws for every long-form first byte declaring
zero (`0x80`) or more than four length bytes, does not throw for any
in-bounds long form using 1 to 4 length bytes, and the rejection propagates
to `decodeInteger`, `decodeSequence` and `decodeSignature`. -/
theorem C5_length_rejection :
    (∀ (data : List Nat) (off : Int) (fb : Nat), byteAt data off = some fb →
      128 ≤ fb → (fb &&& 127 = 0 ∨ 4 < fb &&& 127) →
      decodeLength data off = .error "Invalid or unsupported long form length")
    ∧ (∀ (data : List Nat) (off : Int) (fb : Nat), byteAt data off = some fb →
      128 ≤ fb → 1 ≤ fb &&& 127 → fb &&& 127 ≤ 4 →
      off + 1 + ((fb &&& 127 : Nat) : Int) ≤ (data.length : Int) →
      ∃ res, decodeLength data off = .ok res)
    ∧ (∀ (A B : List Nat) (fb : Nat), 128 ≤ fb → (fb &&& 127 = 0 ∨ 4 < fb &&& 127) →
      decodeInteger (A ++ [INTEGER_TAG, fb] ++ B) A.length
          = .error "Invalid or unsupported long form length"
        ∧ decodeSequence (A ++ [SEQUENCE_TAG, fb] ++ B) A.length
          = .error "Invalid or unsupported long form length"
        ∧ decodeSignature ([SEQUENCE_TAG, fb] ++ B)
          = .error "Invalid or unsupported long form length") := by
  refine ⟨fun data off fb h hhi hbad => decodeLength_reject h hhi hbad,
    fun data off fb h hhi h1 h4 hin => decodeLength_accept h hhi h1 h4 hin, ?_⟩
  intro A B fb hhi hbad
  have hseq : ∀ A' : List Nat,
      decodeSequence (A' ++ [SEQUENCE_TAG, fb] ++ B) A'.length
        = .error "Invalid or unsupported long form length" := by
    intro A'
    have hsh : A' ++ [SEQUENCE_TAG, fb] ++ B = A' ++ SEQUENCE_TAG :: (fb :: B) := by
      simp
    rw [hsh]
    unfold decodeSequence
    rw [if_neg (by rw [byteAt_append_mid]; simp)]
    have hb2 : byteAt (A' ++ SEQUENCE_TAG :: fb :: B) ((A'.length : Int) + 1)
        = some fb := by
      have hsh2 : A' ++ SEQUENCE_TAG :: fb :: B = (A' ++ [SEQUENCE_TAG]) ++ fb :: B := by
        simp
      have hoff : (A'.length : Int) + 1
          = (((A' ++ [SEQUENCE_TAG]).length : Nat) : Int) := by simp
      rw [hsh2, hoff, byteAt_append_mid]
    simp only [decodeLength_reject hb2 hhi hbad]
  refine ⟨?_, hseq A, ?_⟩
  · have hsh : A ++ [INTEGER_TAG, fb] ++ B = A ++ INTEGER_TAG :: (fb :: B) := by simp
    rw [hsh]
    unfold decodeInteger
    rw [if_neg (by rw [byteAt_append_mid]; simp)]
    have hb2 : byteAt (A ++ INTEGER_TAG :: fb :: B) ((A.length : Int) + 1)
        = some fb := by
      have hsh2 : A ++ INTEGER_TAG :: fb :: B = (A ++ [INTEGER_TAG]) ++ fb :: B := by
        simp
      have hoff : (A.length : Int) + 1
          = (((A ++ [INTEGER_TAG]).length : Nat) : Int) := by simp
      rw [hsh2, hoff, byteAt_append_mid]
    simp only [decodeLength_reject hb2 hhi hbad]
  · unfold decodeSignature
    have h0 := hseq []
    simp only [List.nil_append, List.length_nil] at h0
    simp only [h0]

/-- C5 witness: the byte `0x80` (declaring zero length bytes) is rejected. -/
theorem C5_witness :
    byteAt [128] 0 = some 128 ∧
    decodeLength [128] 0 = .error "Invalid or unsupported long form length" :=
  ⟨by decide, C5_length_rejection.1 [128] 0 128 (by decide) (by decide) (by decide)⟩

/-- C6: for every `n` below `2^31`, `encodeLength n` is the single byte `n`
when `n < 128` and otherwise `0x80` bitwise-or the count of following length
bytes, followed by `n` in big-endian; and `decodeLength` applied to
`encodeLength n` at offset 0 round-trips, returning `n` and the full size of
the encoding. -/
theorem C6_encodeLength_forms :
    ∀ n : Nat, n < 2147483648 →
      (n < 128 → encodeLength n = [n])
      ∧ (128 ≤ n → ∃ bs : List Nat, encodeLength n = (128 ||| bs.length) :: bs
          ∧ beVal bs = n ∧ (∀ b ∈ bs, b < 256) ∧ 1 ≤ bs.length ∧ bs.length ≤ 4)
      ∧ decodeLength (encodeLength n) 0 = .ok ((n : Int), (encodeLength n).length) := by
  intro n hn
  refine ⟨fun h => by simp [encodeLength, h], fun h => ?_, ?_⟩
  · refine ⟨beBytes n, by rw [encodeLength, if_neg (by omega : ¬ n < 128)], ?_, ?_, ?_, ?_⟩
    · refine beBytesAux_val 40 n ?_
      calc n < 2147483648 := hn
        _ ≤ 256 ^ 40 := by norm_num
    · exact fun b hb => beBytesAux_lt 40 n b hb
    · have h2 : beBytes n ≠ [] := beBytesAux_ne_nil 40 n (by omega) (by norm_num)
      have := List.length_pos.mpr h2
      omega
    · refine beBytesAux_length_le 40 n 4 ?_ (by norm_num)
      have : (256 : Nat) ^ 4 = 4294967296 := by norm_num
      omega
  · have h := decodeLength_at [] (encodeLength n) [] n (encodeLength_validLenEnc n hn) hn
    simp only [List.nil_append, List.append_nil, List.length_nil, Nat.cast_zero] at h
    exact h

/-- C6 witness: the round trip at `n = 300` (long form, two length bytes). -/
theorem C6_witness :
    (300 : Nat) < 2147483648 ∧
    decodeLength (encodeLength 300) 0 = .ok ((300 : Int), (encodeLength 300).length) :=
  ⟨by decide, (C6_encodeLength_forms 300 (by decide)).2.2⟩

/-- C7 counterexample: a DER INTEGER declaring a 4-byte content length of
`0xFFFFFFFF` (4294967295, which extends far past the end of the 6-byte
buffer) is not rejected: the 32-bit arithmetic turns the length into `-1`,
the bounds check passes, and a value (the empty byte string) is returned;
likewise for a SEQUENCE. -/
theorem C7_counterexample :
    decodeInteger [2, 132, 255, 255, 255, 255] 0 = .ok ([], 5)
    ∧ decodeSequence [48, 132, 255, 255, 255, 255] 0 = .ok ([], 5) := by
  decide

/-- C7 (amended): malformed ASN.1 structure is reported by throwing — a
wrong tag byte always throws in `decodeInteger` and `decodeSequence`, and a
declared content length extending past the end of the buffer throws in both
provided the declared length is below `2^31` (beyond that the 32-bit
overflow of C10 bypasses the bounds check). -/
theorem C7_malformed_throws :
    (∀ (data : List Nat) (offset : Nat), byteAt data offset ≠ some INTEGER_TAG →
      decodeInteger data offset = .error "Expected INTEGER tag (0x02)")
    ∧ (∀ (data : List Nat) (offset : Nat), byteAt data offset ≠ some SEQUENCE_TAG →
      decodeSequence data offset = .error "Expected SEQUENCE tag")
    ∧ (∀ (pre lb B : List Nat) (n : Nat), ValidLenEnc lb n → n < 2147483648 →
      B.length < n →
      decodeInteger (pre ++ [INTEGER_TAG] ++ lb ++ B) pre.length
          = .error "Integer value out of bounds"
        ∧ decodeSequence (pre ++ [SEQUENCE_TAG] ++ lb ++ B) pre.length
          = .error "Sequence content out of bounds") := by
  refine ⟨?_, ?_, ?_⟩
  · intro data offset h
    unfold decodeInteger
    rw [if_pos h]
  · intro data offset h
    unfold decodeSequence
    rw [if_pos h]
  · intro pre lb B n hv hn hB
    constructor
    · have hsh : pre ++ [INTEGER_TAG] ++ lb ++ B = pre ++ INTEGER_TAG :: (lb ++ B) := by
        simp
      rw [hsh]
      unfold decodeInteger
      rw [if_neg (by rw [byteAt_append_mid]; simp)]
      have hdl : decodeLength (pre ++ INTEGER_TAG :: (lb ++ B)) ((pre.length : Int) + 1)
          = .ok ((n : Int), lb.length) := by
        have hsh2 : pre ++ INTEGER_TAG :: (lb ++ B)
            = (pre ++ [INTEGER_TAG]) ++ lb ++ B := by simp
        have hoff : ((pre.length : Int) + 1)
            = (((pre ++ [INTEGER_TAG]).length : Nat) : Int) := by simp
        rw [hsh2, hoff]
        exact decodeLength_at _ _ _ _ hv hn
      simp only [hdl]
      rw [if_pos (by
        have hdlen : (pre ++ INTEGER_TAG :: (lb ++ B)).length
            = pre.length + 1 + lb.length + B.length := by simp; omega
        rw [hdlen]
        push_cast
        omega)]
    · have hsh : pre ++ [SEQUENCE_TAG] ++ lb ++ B = pre ++ SEQUENCE_TAG :: (lb ++ B) := by
        simp
      rw [hsh]
      unfold decodeSequence
      rw [if_neg (by rw [byteAt_append_mid]; simp)]
      have hdl : decodeLength (pre ++ SEQUENCE_TAG :: (lb ++ B)) ((pre.length : Int) + 1)
          = .ok ((n : Int), lb.length) := by
        have hsh2 : pre ++ SEQUENCE_TAG :: (lb ++ B)
            = (pre ++ [SEQUENCE_TAG]) ++ lb ++ B := by simp
        have hoff : ((pre.length : Int) + 1)
            = (((pre ++ [SEQUENCE_TAG]).length : Nat) : Int) := by simp
        rw [hsh2, hoff]
        exact decodeLength_at _ _ _ _ hv hn
      simp only [hdl]
      rw [if_pos (by
        have hdlen : (pre ++ SEQUENCE_TAG :: (lb ++ B)).length
            = pre.length + 1 + lb.length + B.length := by simp; omega
        rw [hdlen]
        push_cast
        omega)]

/-- C7 witness: the truncated INTEGER `02 02 00` (two content bytes
declared, one present) and the matching truncated SEQUENCE both throw. -/
theorem C7_witness :
    ValidLenEnc [2] 2 ∧
    (decodeInteger (([] : List Nat) ++ [INTEGER_TAG] ++ [2] ++ [0])
          ([] : List Nat).length
        = .error "Integer value out of bounds"
      ∧ decodeSequence (([] : List Nat) ++ [SEQUENCE_TAG] ++ [2] ++ [0])
          ([] : List Nat).length
        = .error "Sequence content out of bounds") :=
  ⟨Or.inl ⟨by decide, rfl⟩,
    C7_malformed_throws.2.2 [] [2] [0] 2 (Or.inl ⟨by decide, rfl⟩) (by decide) (by decide)⟩

/-- C8: `Hex.decode` throws for every odd-length input string, and this
rejection is reached from every string input of `encodeInteger`,
`encodeSignature` and `rawToDer` (in `rawToDer` the 128-character check
throws first, but an odd-length string always throws there too). -/
theorem C8_hexDecode_odd :
    ∀ s : List Char, s.length % 2 = 1 →
      hexDecode s = .error "Invalid hex string length"
      ∧ encodeInteger (.str s) = .error "Invalid hex string length"
      ∧ (∀ v : Bin, ∃ e, encodeSignature (.str s) v = .error e)
      ∧ (∀ v : Bin, ∃ e, encodeSignature v (.str s) = .error e)
      ∧ (∃ e, rawToDer (.str s) = .error e) := by
  intro s hodd
  have hd : hexDecode s = .error "Invalid hex string length" := by
    unfold hexDecode
    rw [if_pos (by omega)]
  have hei : encodeInteger (.str s) = .error "Invalid hex string length" := by
    unfold encodeInteger binToBytes
    simp only [hd]
  refine ⟨hd, hei, ?_, ?_, ?_⟩
  · intro v
    refine ⟨"Invalid hex string length", ?_⟩
    unfold encodeSignature
    simp only [hei]
  · intro v
    unfold encodeSignature
    cases hv : encodeInteger v with
    | error e => exact ⟨e, by simp only [hv]⟩
    | ok rE => exact ⟨"Invalid hex string length", by simp only [hv, hei]⟩
  · refine ⟨"Raw signature string must be 128 hex chars", ?_⟩
    simp only [rawToDer]
    rw [if_pos (by omega)]

/-- C8 witness: the single character `"a"` is rejected. -/
theorem C8_witness :
    (['a'] : List Char).length % 2 = 1 ∧
    hexDecode ['a'] = .error "Invalid hex string length" :=
  ⟨by decide, (C8_hexDecode_odd ['a'] (by decide)).1⟩

/-- C9 counterexample: the even-length string `"1g"` contains a character
outside `0-9/a-f/A-F`, yet it decodes to the byte `0x01`, not `0x00`:
`parseInt("1g", 16)` parses the longest valid prefix `"1"` and yields `1`,
not `NaN`. -/
theorem C9_counterexample :
    hexDecode ['1', 'g'] = .ok [1] ∧ ([1] : List Nat) ≠ [0] := by
  decide

/-- C9 (amended): hex string decoding does not validate hex digits — every
even-length input decodes without throwing (to half as many bytes); each
2-character pair is parsed with `parseInt` semantics, so a pair whose first
character is not a hex digit (nor whitespace, a sign, or the start of a
`0x` marker) stores `0x00` (`parseInt` yields `NaN`, stored as 0), while a
pair with a valid first digit and an invalid second stores the first
digit's value (for example `"1g"` stores `0x01`); malformed hex passed as a
string is silently accepted rather than rejected. -/
theorem C9_hexDecode_lenient :
    (∀ s : List Char, s.length % 2 = 0 →
      hexDecode s = .ok (hexDecodePairs s)
        ∧ (hexDecodePairs s).length = s.length / 2)
    ∧ (∀ c0 c1 : Char, ¬ jsHexDigit c0 → ¬ isJsSpace c0 → c0 ≠ '+' → c0 ≠ '-' →
      hexDecode [c0, c1] = .ok [0])
    ∧ hexDecode ['g', '1'] = .ok [0]
    ∧ hexDecode ['1', 'g'] = .ok [1] := by
  refine ⟨fun s he => ⟨hexDecode_even s he, hexDecodePairs_length s⟩, ?_,
    by decide, by decide⟩
  intro c0 c1 hd hs hp hm
  have hpair : parseIntHexPair c0 c1 = none := by
    unfold parseIntHexPair
    rw [if_neg hs, if_neg hp, if_neg hm,
      if_neg (by rintro ⟨rfl, -⟩; exact hd (by decide)), if_neg hd]
  unfold hexDecode
  rw [if_neg (by simp)]
  simp [hexDecodePairs, hpair, storeUint8]

/-- C9 witness: the pair `"gz"`, whose first character is not a hex digit,
decodes to the byte `0x00` without throwing. -/
theorem C9_witness :
    ¬ jsHexDigit 'g' ∧ hexDecode ['g', 'z'] = .ok [0] :=
  ⟨by decide,
    C9_hexDecode_lenient.2.1 'g' 'z' (by decide) (by decide) (by decide) (by decide)⟩

/-- C10: for a long-form length encoding using exactly 4 length bytes whose
first length byte is at least `0x80` (declared length at least `2^31`),
`decodeLength` does not throw but computes the value with signed 32-bit
shifts, returning the declared big-endian value minus `2^32` — a negative
number; `decodeInteger` then compares its bounds against that negative
length, so no out-of-bounds error is raised and an empty value is
returned. -/
theorem C10_length_overflow :
    ∀ b0 b1 b2 b3 : Nat, b0 < 256 → b1 < 256 → b2 < 256 → b3 < 256 → 128 ≤ b0 →
    ∀ A B : List Nat,
      decodeLength (A ++ [132, b0, b1, b2, b3] ++ B) A.length
          = .ok ((beVal [b0, b1, b2, b3] : Int) - 4294967296, 5)
        ∧ (beVal [b0, b1, b2, b3] : Int) - 4294967296 < 0
        ∧ decodeInteger [INTEGER_TAG, 132, b0, b1, b2, b3] 0
          = .ok ([], (beVal [b0, b1, b2, b3] : Int) - 4294967296 + 6) := by
  intro b0 b1 b2 b3 h0 h1 h2 h3 hhi A B
  have he : beVal [b0, b1, b2, b3] = ((b0 * 256 + b1) * 256 + b2) * 256 + b3 := by
    simp only [beVal, List.foldl_cons, List.foldl_nil]
    ring
  have hblo : 2147483648 ≤ beVal [b0, b1, b2, b3] := by rw [he]; omega
  have hbhi : beVal [b0, b1, b2, b3] < 4294967296 := by rw [he]; omega
  have hdl : ∀ (A' B' : List Nat),
      decodeLength (A' ++ [132, b0, b1, b2, b3] ++ B') A'.length
        = .ok ((beVal [b0, b1, b2, b3] : Int) - 4294967296, 5) :=
    fun A' B' => decodeLength_four_at A' B' b0 b1 b2 b3 h0 h1 h2 h3 hhi
  refine ⟨hdl A B, by omega, ?_⟩
  unfold decodeInteger
  rw [if_neg (by simp only [Nat.cast_zero, byteAt_cons_zero]; simp)]
  have hd2 := hdl [INTEGER_TAG] []
  have hsh3 : ([INTEGER_TAG] : List Nat) ++ [132, b0, b1, b2, b3] ++ []
      = [INTEGER_TAG, 132, b0, b1, b2, b3] := by simp
  have hoff3 : (([INTEGER_TAG] : List Nat).length : Int) = ((0 : Nat) : Int) + 1 := by
    simp
  rw [hsh3, hoff3] at hd2
  simp only [hd2]
  rw [if_neg (by simp only [List.length_cons, List.length_nil]; push_cast; omega)]
  have hsub : subarray [INTEGER_TAG, 132, b0, b1, b2, b3]
      (((0 : Nat) : Int) + 1 + ((5 : Nat) : Int))
      (((0 : Nat) : Int) + 1 + ((5 : Nat) : Int)
        + ((beVal [b0, b1, b2, b3] : Int) - 4294967296)) = [] := by
    refine subarray_start_ge _ _ _ (by omega) ?_
    simp only [List.length_cons, List.length_nil]
    omega
  rw [hsub]
  rw [if_neg (by simp)]
  have hfin : (1 : Int) + ((5 : Nat) : Int)
      + ((beVal [b0, b1, b2, b3] : Int) - 4294967296)
      = (beVal [b0, b1, b2, b3] : Int) - 4294967296 + 6 := by
    push_cast
    ring
  rw [hfin]

/-- C10 witness: the encoding declaring length `0xFFFFFFFF` with four
length bytes decodes to `-1` instead of 4294967295. -/
theorem C10_witness :
    (128 : Nat) ≤ 255 ∧
    (decodeLength (([] : List Nat) ++ [132, 255, 255, 255, 255] ++ [])
          ([] : List Nat).length
        = .ok ((beVal [255, 255, 255, 255] : Int) - 4294967296, 5)
      ∧ (beVal [255, 255, 255, 255] : Int) - 4294967296 < 0
      ∧ decodeInteger [INTEGER_TAG, 132, 255, 255, 255, 255] 0
        = .ok ([], (beVal [255, 255, 255, 255] : Int) - 4294967296 + 6)) :=
  ⟨by decide, C10_length_overflow 255 255 255 255 (by decide) (by decide) (by decide)
    (by decide) (by decide) [] []⟩

end SMKit
